import Mathlib

/-!
# The locks worker of the Git source-control plugin

A shallow embedding of `GitSourceControlLocksWorker.h` / `.cpp` and of the guard
protocol used in `GitSourceControlOperations.cpp`.

* The worker object is a record of its fields; the static pointer `Runnable`
  is an `Option` inside `System`.
* The body of the `while` loop of `Run` is the function `RunLoopBody`; it
  returns the new worker, the new state of the outside world and the list of
  calls it issued, oldest first.
* Functions that the worker calls but whose bodies are not among the sources
  (`GitSourceControlUtils::*`, the engine's sleep and on-screen message) are
  fields of `Collaborators`; every theorem holds for all of them.
* `UE_LOG` lines are diagnostics and are not recorded.
* `int32` values are integers; `CurIteration + 1` wraps to 32 bits and `%` is
  the truncating remainder of C++.
* `FPlatformProcess::Sleep(0.03)` is recorded as a sleep of 30 milliseconds.
* A call of the static interface that finds `Runnable` null and dereferences it
  yields `none`.
* Threads are modelled by interleaving: a schedule says whose step comes next,
  and one call of the static interface is one step; so is one turn of the
  worker's loop, the test of the stop counter together with the body.
* `RunCommand` yields its outcome (flag, result lines, error lines) along with
  the next world; `Run` drops the outcome.
* `Shutdown` yields the state afterwards and the steps it took;
  `Thread->WaitForCompletion()` is engine code and is recorded as a step.
* `ShutdownJoined` is `Shutdown` together with the worker thread it waits for.
  There the turn of the worker is split in two: `Stop()` arrives either before
  the loop condition is evaluated or after it was found true and before the
  body (`LoopPosition`); the body itself stays one step.
* The operation workers of `GitSourceControlOperations.cpp` (check-out, the
  unlock block of check-in, revert, mark-for-add) are run as one foreground
  caller with no other thread taking a step; a call ends as a `Completion`: it
  returns, or its busy wait on the guard never ends, or it dereferences a null
  `Runnable`. Their helpers outside the sources, and the `FString` operations
  `StartsWith` and `operator==`, are fields of `OperationCollaborators`.
* The loop over `AllProjects` that the operation workers share is the function
  `PartitionLoop`, with the loop body and the presence of the `continue` on an
  empty selection as arguments; it also yields the visits it made.
-/

/-! ## Data model -/

/-- One queued invocation, `struct COMMAND` (GitSourceControlLocksWorker.h:21-32). -/
structure COMMAND where
  Command : String
  PathToGitBinary : String
  RepositoryRoot : String
  Parameters : List String
  Files : List String
deriving DecidableEq, Repr

/-- The data members of the worker class (GitSourceControlLocksWorker.h:38-57),
`std::queue` as a list whose head is the front. -/
structure FGitSourceControlLocksWorker where
  StopTaskCounter : Int
  CurIteration : Int
  CommandQueue : List COMMAND
  PathToGitBinary : String
  PathToRepositoryRoot : String
  LfsUserName : String
  mutex : Bool
deriving DecidableEq, Repr

/-- One call issued by the worker to a collaborator. The type `σ` is the status
record `FGitSourceControlState`, which the worker only passes along. -/
inductive Event (σ : Type) where
  | RunCommand (InCommand PathToGitBinary RepositoryRoot : String)
      (InParameters InFiles : List String)
  | UpdateLockCaches (PathToGitBinary PathToRepositoryRoot LfsUserName : String)
  | FindRepoRoot (File RepoRoot : String)
  | RunUpdateStatus (PathToGitBinary RepoRoot : String) (UsingLfsLocking : Bool)
      (Files : List String)
  | UpdateCachedStates (States : List σ)
  | GetSubModulesRoots
  | AddOnScreenDebugMessage (Message : String)
  | Sleep (Milliseconds : Nat)
deriving DecidableEq, Repr

/-- What a call of `RunCommand` hands back to its caller: the returned flag and
the two arrays it fills, `OutResults` and `OutErrorMessages`. -/
structure RunCommandOutcome where
  Success : Bool
  OutResults : List String
  OutErrorMessages : List String
deriving DecidableEq, Repr

/-- The functions called by `Run` whose bodies are outside the sources at hand,
taken as parameters. `ω` is the state of the outside world (repository, lock
cache, status cache): a call reads it and, where the callee has effects,
returns the next one. `RunCommand` yields its outcome as well. The `States`
array of `RunUpdateStatus` is passed by reference, so it is both an argument
and a result; `FindRepoRoot` receives the default root in its by-reference
argument and yields the resolved root; `UpdateLockCaches` yields the `changed`
flag and the `ChangedFiles` array. -/
structure Collaborators (σ ω : Type) where
  RunCommand : String → String → String → List String → List String → ω →
    RunCommandOutcome × ω
  UpdateLockCaches : String → String → String → ω → (Bool × List String) × ω
  FindRepoRoot : String → String → ω → String
  RunUpdateStatus : String → String → Bool → List String → List σ → ω → List σ × ω
  UpdateCachedStates : List σ → ω → ω
  GetSubModulesRoots : ω → List String
  AddOnScreenDebugMessage : String → ω → ω
  Sleep : Nat → ω → ω

/-- What the constructor reads from the source-control module
(GitSourceControlLocksWorker.cpp:24-28). -/
structure ModuleSettings where
  BinaryPath : String
  PathToRepositoryRoot : String
  LfsUserName : String
deriving DecidableEq, Repr

/-- The platform as seen by `JoyInit`: the answer of
`FPlatformProcess::SupportsMultithreading()` and the module settings. -/
structure Platform where
  SupportsMultithreading : Bool
  Settings : ModuleSettings
deriving DecidableEq, Repr

/-- The process-wide state: the static pointer `Runnable` (`none` is `NULL`) and
the number of times the constructor has run, each run creating one thread with
`FRunnableThread::Create`. -/
structure System where
  Runnable : Option FGitSourceControlLocksWorker
  Constructed : Nat
deriving DecidableEq, Repr

/-! ## Integer arithmetic of the schedule counter -/

/-- Reduction of an integer to the `int32` range (two's complement). -/
def wrapInt32 (x : Int) : Int := (x + 2 ^ 31) % 2 ^ 32 - 2 ^ 31

/-- The constant `MaxIteration` (GitSourceControlLocksWorker.h:45). -/
def MaxIteration : Int := 300

/-- The expression `(CurIteration + 1) % MaxIteration`. -/
def Advance (CurIteration : Int) : Int := Int.tmod (wrapInt32 (CurIteration + 1)) MaxIteration

namespace FGitSourceControlLocksWorker

/-! ## The loop of `Run` -/

/-- The call `RunCommand(command.Command, ...)` made for a dequeued command. -/
def CommandEvent (σ : Type) (command : COMMAND) : Event σ :=
  Event.RunCommand command.Command command.PathToGitBinary command.RepositoryRoot
    command.Parameters command.Files

/-- The outside world after running a dequeued command; the outcome of the call
(the returned flag and the local arrays `Results` and `ErrorMessage`) is dropped
(GitSourceControlLocksWorker.cpp:61-64). -/
def CommandEffect {σ ω : Type} (u : Collaborators σ ω) (command : COMMAND) (x : ω) : ω :=
  (u.RunCommand command.Command command.PathToGitBinary command.RepositoryRoot
    command.Parameters command.Files x).2

/-- The `for (const auto& File : ChangedFiles)` loop of the refresh branch
(GitSourceControlLocksWorker.cpp:75-83). -/
def RefreshChangedFiles {σ ω : Type} (u : Collaborators σ ω)
    (PathToGitBinary PathToRepositoryRoot : String) :
    List String → List σ → ω → List σ × ω × List (Event σ)
  | [], States, x => (States, x, [])
  | File :: rest, States, x =>
    let OneFile := [File]
    let RepoRoot := u.FindRepoRoot File PathToRepositoryRoot x
    let r := u.RunUpdateStatus PathToGitBinary RepoRoot true OneFile States x
    let x2 := u.UpdateCachedStates r.1 r.2
    let k := RefreshChangedFiles u PathToGitBinary PathToRepositoryRoot rest r.1 x2
    (k.1, k.2.1,
      [Event.FindRepoRoot File PathToRepositoryRoot,
       Event.RunUpdateStatus PathToGitBinary RepoRoot true OneFile,
       Event.UpdateCachedStates r.1] ++ k.2.2)

/-- The repository root computed inside the sweep loop
(GitSourceControlLocksWorker.cpp:111-112). -/
def SubRepoRoot (PathToRepositoryRoot Sub : String) : String :=
  if Sub ≠ "" then PathToRepositoryRoot ++ ("/" ++ Sub) else PathToRepositoryRoot

/-- The `for (const auto& Sub : AllProjects)` loop of the sweep branch
(GitSourceControlLocksWorker.cpp:110-116). -/
def RescanProjects {σ ω : Type} (u : Collaborators σ ω)
    (PathToGitBinary PathToRepositoryRoot : String) :
    List String → List σ → ω → List σ × ω × List (Event σ)
  | [], States, x => (States, x, [])
  | Sub :: rest, States, x =>
    let RepoRoot := SubRepoRoot PathToRepositoryRoot Sub
    let ProjectDirs := [RepoRoot ++ "/"]
    let r := u.RunUpdateStatus PathToGitBinary RepoRoot true ProjectDirs States x
    let k := RescanProjects u PathToGitBinary PathToRepositoryRoot rest r.1 r.2
    (k.1, k.2.1, Event.RunUpdateStatus PathToGitBinary RepoRoot true ProjectDirs :: k.2.2)

/-- The body of the `while` loop of `Run`
(GitSourceControlLocksWorker.cpp:55-122): one iteration, entered after the loop
condition was found true. -/
def RunLoopBody {σ ω : Type} (u : Collaborators σ ω) (w : FGitSourceControlLocksWorker)
    (x : ω) : FGitSourceControlLocksWorker × ω × List (Event σ) :=
  match w.CommandQueue with
  | command :: rest =>
    ({ w with CommandQueue := rest }, CommandEffect u command x, [CommandEvent σ command])
  | [] =>
    if w.CurIteration = 0 then
      let w1 := { w with CurIteration := Advance w.CurIteration }
      let r := u.UpdateLockCaches w1.PathToGitBinary w1.PathToRepositoryRoot w1.LfsUserName x
      let called := Event.UpdateLockCaches w1.PathToGitBinary w1.PathToRepositoryRoot
        w1.LfsUserName
      if r.1.1 then
        let k := RefreshChangedFiles u w1.PathToGitBinary w1.PathToRepositoryRoot r.1.2 [] r.2
        (w1, k.2.1, called :: k.2.2)
      else
        (w1, r.2, [called])
    else if w.CurIteration = -1 then
      let w1 := { w with CurIteration := Advance w.CurIteration }
      let Message := "Updating Submodules to the latest version!"
      let x1 := u.AddOnScreenDebugMessage Message x
      let Parameters := ["--rebase", "--autostash", "origin", "HEAD"]
      let x2 :=
        (u.RunCommand "pull" w1.PathToGitBinary w1.PathToRepositoryRoot Parameters [] x1).2
      let Parameters1 := ["--recursive", "--remote"]
      let x3 := (u.RunCommand "submodule update" w1.PathToGitBinary w1.PathToRepositoryRoot
        Parameters1 [] x2).2
      let AllProjects := u.GetSubModulesRoots x3 ++ [""]
      let k := RescanProjects u w1.PathToGitBinary w1.PathToRepositoryRoot AllProjects [] x3
      (w1, k.2.1,
        [Event.AddOnScreenDebugMessage Message,
         Event.RunCommand "pull" w1.PathToGitBinary w1.PathToRepositoryRoot Parameters [],
         Event.RunCommand "submodule update" w1.PathToGitBinary w1.PathToRepositoryRoot
           Parameters1 [],
         Event.GetSubModulesRoots] ++ k.2.2)
    else
      ({ w with CurIteration := Advance w.CurIteration }, u.Sleep 30 x, [Event.Sleep 30])

/-- At most `n` iterations of the `while` loop of `Run`: the condition
`StopTaskCounter.GetValue() == 0` is tested before each one and the loop is left
as soon as it fails. -/
def RunIterations {σ ω : Type} (u : Collaborators σ ω) :
    Nat → FGitSourceControlLocksWorker → ω → FGitSourceControlLocksWorker × ω × List (Event σ)
  | 0, w, x => (w, x, [])
  | n + 1, w, x =>
    if w.StopTaskCounter = 0 then
      let r := RunLoopBody u w x
      let k := RunIterations u n r.1 r.2.1
      (k.1, k.2.1, r.2.2 ++ k.2.2)
    else
      (w, x, [])

/-- The function `Run` (GitSourceControlLocksWorker.cpp:48-125) with a bound on
the number of loop iterations: the initial sleep, then the loop; `some 0` with
the final worker, world and calls once the loop has been left, `none` when the
bound is used up first. -/
def Run {σ ω : Type} (u : Collaborators σ ω) (fuel : Nat) (w : FGitSourceControlLocksWorker)
    (x : ω) : Option (Nat × FGitSourceControlLocksWorker × ω × List (Event σ)) :=
  let r := RunIterations u fuel w (u.Sleep 30 x)
  if r.1.StopTaskCounter = 0 then none
  else some (0, r.1, r.2.1, Event.Sleep 30 :: r.2.2)

/-- The function `Stop` (GitSourceControlLocksWorker.cpp:127-130). -/
def Stop (w : FGitSourceControlLocksWorker) : FGitSourceControlLocksWorker :=
  { w with StopTaskCounter := wrapInt32 (w.StopTaskCounter + 1) }

/-! ## The static interface -/

/-- The constructor (GitSourceControlLocksWorker.cpp:14-34) with the member
initialisers of the class declaration. -/
def Construct (m : ModuleSettings) : FGitSourceControlLocksWorker :=
  { StopTaskCounter := 0
    CurIteration := 1
    CommandQueue := []
    PathToGitBinary := m.BinaryPath
    PathToRepositoryRoot := m.PathToRepositoryRoot
    LfsUserName := m.LfsUserName
    mutex := false }

/-- The function `JoyInit` (GitSourceControlLocksWorker.cpp:138-146): the returned
pointer and the state afterwards. -/
def JoyInit (p : Platform) (s : System) : Option FGitSourceControlLocksWorker × System :=
  if s.Runnable.isNone && p.SupportsMultithreading then
    (some (Construct p.Settings),
      { Runnable := some (Construct p.Settings), Constructed := s.Constructed + 1 })
  else
    (s.Runnable, s)

/-- The function `PushCommand` (GitSourceControlLocksWorker.cpp:148-153); `none`
is the dereference of a null `Runnable`. -/
def PushCommand (p : Platform) (InCommand InPathToGitBinary InRepositoryRoot : String)
    (InParameters InFiles : List String) (s : System) : Option System :=
  let node : COMMAND :=
    { Command := InCommand, PathToGitBinary := InPathToGitBinary,
      RepositoryRoot := InRepositoryRoot, Parameters := InParameters, Files := InFiles }
  let s1 := if s.Runnable.isNone then (JoyInit p s).2 else s
  match s1.Runnable with
  | none => none
  | some w => some { s1 with Runnable := some { w with CommandQueue := w.CommandQueue ++ [node] } }

/-- The function `PushUpdates` (GitSourceControlLocksWorker.cpp:155-159); `none` is
the dereference of a null `Runnable`. -/
def PushUpdates (p : Platform) (OpCode : Int) (s : System) : Option System :=
  let s1 := if s.Runnable.isNone then (JoyInit p s).2 else s
  match s1.Runnable with
  | none => none
  | some w => some { s1 with Runnable := some { w with CurIteration := OpCode } }

/-- The function `IsWrittingCache` (GitSourceControlLocksWorker.cpp:177-181). -/
def IsWrittingCache (s : System) : Bool :=
  match s.Runnable with
  | some w => w.mutex
  | none => false

/-- The function `LockCache` (GitSourceControlLocksWorker.cpp:183-186). -/
def LockCache (s : System) : System :=
  match s.Runnable with
  | some w => { s with Runnable := some { w with mutex := true } }
  | none => s

/-- The function `UnlockCache` (GitSourceControlLocksWorker.cpp:188-191). -/
def UnlockCache (s : System) : System :=
  match s.Runnable with
  | some w => { s with Runnable := some { w with mutex := false } }
  | none => s

/-- A list of commands pushed one after the other with `PushCommand`. -/
def PushAll (p : Platform) : List COMMAND → System → Option System
  | [], s => some s
  | c :: cs, s =>
    match PushCommand p c.Command c.PathToGitBinary c.RepositoryRoot c.Parameters c.Files s with
    | none => none
    | some s1 => PushAll p cs s1

/-- The outside world after the commands of a list have run in order. -/
def CommandEffects {σ ω : Type} (u : Collaborators σ ω) : List COMMAND → ω → ω
  | [], x => x
  | c :: cs, x => CommandEffects u cs (CommandEffect u c x)

end FGitSourceControlLocksWorker

/-! ## The guard protocol of the foreground callers -/

namespace GuardProtocol

open FGitSourceControlLocksWorker

/-- Where a foreground caller stands in the sequence of
GitSourceControlOperations.cpp:119-122:
`while (IsWrittingCache()) {}`, `LockCache()`, the cache edit, `UnlockCache()`. -/
inductive Position where
  | Polling
  | Locking
  | Editing
  | Unlocking
  | Finished
deriving DecidableEq, Repr

/-- The shared state and the position of every caller. -/
structure Callers where
  Shared : System
  Positions : List Position
deriving DecidableEq, Repr

/-- One step of caller `i`, each call of the static interface taken as atomic:
a poll that reads `true` stays in the loop, a poll that reads `false` leaves it;
then `LockCache`, the edit of the lock cache, and `UnlockCache`. -/
def CallerStep (i : Nat) (g : Callers) : Callers :=
  match g.Positions.get? i with
  | none => g
  | some Position.Polling =>
    if IsWrittingCache g.Shared then g
    else { g with Positions := g.Positions.set i Position.Locking }
  | some Position.Locking =>
    { Shared := LockCache g.Shared, Positions := g.Positions.set i Position.Editing }
  | some Position.Editing =>
    { g with Positions := g.Positions.set i Position.Unlocking }
  | some Position.Unlocking =>
    { Shared := UnlockCache g.Shared, Positions := g.Positions.set i Position.Finished }
  | some Position.Finished => g

/-- The callers run in the order given by a schedule of caller indices. -/
def Interleave : List Nat → Callers → Callers
  | [], g => g
  | i :: rest, g => Interleave rest (CallerStep i g)

/-- A caller is inside its critical section: its `LockCache()` has returned and
its `UnlockCache()` has not been called yet. -/
def InCriticalSection (q : Position) : Bool :=
  q == Position.Editing || q == Position.Unlocking

/-- How many callers are inside their critical section. -/
def Holders (g : Callers) : Nat := (g.Positions.filter InCriticalSection).length

end GuardProtocol

/-- A call made only by the periodic branches of the loop: every call other
than `RunCommand`. -/
def Event.IsPeriodicCall {σ : Type} : Event σ → Bool
  | Event.RunCommand _ _ _ _ _ => false
  | _ => true

/-! ## Sample data -/

/-- Collaborators that do nothing and report nothing, over a one-point world. -/
def QuietCollaborators : Collaborators Unit Unit :=
  { RunCommand := fun _ _ _ _ _ x => (⟨true, [], []⟩, x)
    UpdateLockCaches := fun _ _ _ x => ((false, []), x)
    FindRepoRoot := fun _ RepoRoot _ => RepoRoot
    RunUpdateStatus := fun _ _ _ _ States x => (States, x)
    UpdateCachedStates := fun _ x => x
    GetSubModulesRoots := fun _ => []
    AddOnScreenDebugMessage := fun _ x => x
    Sleep := fun _ x => x }

/-- Settings of a sample project. -/
def SampleSettings : ModuleSettings :=
  { BinaryPath := "git", PathToRepositoryRoot := "R", LfsUserName := "me" }

/-- A platform with threads. -/
def ThreadedPlatform : Platform := { SupportsMultithreading := true, Settings := SampleSettings }

/-- A platform without threads. -/
def SingleThreadedPlatform : Platform :=
  { SupportsMultithreading := false, Settings := SampleSettings }

/-- The state before any worker was started. -/
def NoWorker : System := { Runnable := none, Constructed := 0 }

/-- The state right after the first worker was started. -/
def FreshWorker : System :=
  { Runnable := some (FGitSourceControlLocksWorker.Construct SampleSettings), Constructed := 1 }

/-- Three sample commands. -/
def SampleCommands : List COMMAND :=
  [ { Command := "lfs lock", PathToGitBinary := "git", RepositoryRoot := "R",
      Parameters := [], Files := ["a"] },
    { Command := "lfs unlock", PathToGitBinary := "git", RepositoryRoot := "R",
      Parameters := [], Files := ["b"] },
    { Command := "lfs lock", PathToGitBinary := "git", RepositoryRoot := "R",
      Parameters := [], Files := ["c"] } ]

/-- The repository roots of the `RunUpdateStatus` calls of a list of calls, in
order. -/
def RescanRoots {σ : Type} : List (Event σ) → List String
  | [] => []
  | Event.RunUpdateStatus _ RepoRoot _ _ :: rest => RepoRoot :: RescanRoots rest
  | _ :: rest => RescanRoots rest

/-- A call of `RunUpdateStatus`. -/
def Event.IsRescan {σ : Type} : Event σ → Bool
  | Event.RunUpdateStatus _ _ _ _ => true
  | _ => false

/-- A call of `UpdateCachedStates`. -/
def Event.IsPublish {σ : Type} : Event σ → Bool
  | Event.UpdateCachedStates _ => true
  | _ => false

/-- A call of `UpdateLockCaches`. -/
def Event.IsRefresh {σ : Type} : Event σ → Bool
  | Event.UpdateLockCaches _ _ _ => true
  | _ => false

/-- Quiet collaborators whose `GetSubModulesRoots` yields the given list. -/
def WithSubModules (subs : List String) : Collaborators Unit Unit :=
  { QuietCollaborators with GetSubModulesRoots := fun _ => subs }

/-- Quiet collaborators whose `UpdateLockCaches` yields the given flag and list. -/
def WithLockChanges (changed : Bool) (ChangedFiles : List String) : Collaborators Unit Unit :=
  { QuietCollaborators with UpdateLockCaches := fun _ _ _ x => ((changed, ChangedFiles), x) }

/-- The outside world at the moment the sweep branch calls `GetSubModulesRoots`:
after the on-screen message, the pull and the submodule update
(GitSourceControlLocksWorker.cpp:88-103). -/
def SweepCommandsEffect {σ ω : Type} (u : Collaborators σ ω)
    (w : FGitSourceControlLocksWorker) (x : ω) : ω :=
  (u.RunCommand "submodule update" w.PathToGitBinary w.PathToRepositoryRoot
    ["--recursive", "--remote"] []
    (u.RunCommand "pull" w.PathToGitBinary w.PathToRepositoryRoot
      ["--rebase", "--autostash", "origin", "HEAD"] []
      (u.AddOnScreenDebugMessage "Updating Submodules to the latest version!" x)).2).2

/-- A call of `RunCommand` for the given git command. -/
def Event.IsCommandNamed {σ : Type} (Name : String) : Event σ → Bool
  | Event.RunCommand InCommand _ _ _ _ => InCommand == Name
  | _ => false

/-- The calls `JoyInit()` made `n` times in a row. -/
def JoyInitTimes (p : Platform) : Nat → System → System
  | 0, s => s
  | n + 1, s => JoyInitTimes p n (FGitSourceControlLocksWorker.JoyInit p s).2

/-! ## Shutdown, the liveness probe and runs of several threads -/

/-- A step of the shutdown sequence, with the worker object as it is when the
step is taken. -/
inductive LifecycleEvent where
  | StopSignalled (w : FGitSourceControlLocksWorker)
  | WaitForCompletion (w : FGitSourceControlLocksWorker)
  | Deleted (w : FGitSourceControlLocksWorker)
deriving DecidableEq, Repr

/-- One step of a run of the whole system: the worker thread evaluates the loop
condition and, when it holds, runs the loop body once; or some other thread
makes one call of the static interface. -/
inductive SystemAction where
  | Iterate
  | PushCommand (command : COMMAND)
  | PushUpdates (OpCode : Int)
  | LockCache
  | UnlockCache
deriving DecidableEq, Repr

/-- The action is a call of `PushUpdates`. -/
def SystemAction.IsPushUpdates : SystemAction → Bool
  | SystemAction.PushUpdates _ => true
  | _ => false

namespace FGitSourceControlLocksWorker

/-- The function `EnsureCompletion` (GitSourceControlLocksWorker.cpp:132-136):
`Stop()`, then `Thread->WaitForCompletion()`. -/
def EnsureCompletion (w : FGitSourceControlLocksWorker) :
    FGitSourceControlLocksWorker × List LifecycleEvent :=
  let w1 := Stop w
  (w1, [LifecycleEvent.StopSignalled w1, LifecycleEvent.WaitForCompletion w1])

/-- The function `Shutdown` (GitSourceControlLocksWorker.cpp:161-169): the state
afterwards and the steps taken. -/
def Shutdown (s : System) : System × List LifecycleEvent :=
  match s.Runnable with
  | some w =>
    let r := EnsureCompletion w
    ({ s with Runnable := none }, r.2 ++ [LifecycleEvent.Deleted r.1])
  | none => (s, [])

/-- The member `IsFinished` (GitSourceControlLocksWorker.h:61-64). -/
def IsFinished (_w : FGitSourceControlLocksWorker) : Bool := false

/-- The function `IsThreadFinished` (GitSourceControlLocksWorker.cpp:171-175). -/
def IsThreadFinished (s : System) : Bool :=
  match s.Runnable with
  | some w => IsFinished w
  | none => true

/-- The worker thread takes one turn: with a worker present it evaluates the
loop condition once and runs the body if the condition holds. -/
def WorkerTurn {σ ω : Type} (u : Collaborators σ ω) (s : System) (x : ω) :
    System × ω × List (Event σ) :=
  match s.Runnable with
  | some w =>
    let r := RunIterations u 1 w x
    ({ s with Runnable := some r.1 }, r.2.1, r.2.2)
  | none => (s, x, [])

/-- A run of the system: the actions are taken one after the other; `none` when a
call dereferences a null `Runnable`. -/
def RunActions {σ ω : Type} (u : Collaborators σ ω) (p : Platform) :
    List SystemAction → System → ω → Option (System × ω × List (Event σ))
  | [], s, x => some (s, x, [])
  | SystemAction.Iterate :: rest, s, x =>
    let r := WorkerTurn u s x
    match RunActions u p rest r.1 r.2.1 with
    | some k => some (k.1, k.2.1, r.2.2 ++ k.2.2)
    | none => none
  | SystemAction.PushCommand c :: rest, s, x =>
    match PushCommand p c.Command c.PathToGitBinary c.RepositoryRoot c.Parameters c.Files s with
    | some s1 => RunActions u p rest s1 x
    | none => none
  | SystemAction.PushUpdates OpCode :: rest, s, x =>
    match PushUpdates p OpCode s with
    | some s1 => RunActions u p rest s1 x
    | none => none
  | SystemAction.LockCache :: rest, s, x => RunActions u p rest (LockCache s) x
  | SystemAction.UnlockCache :: rest, s, x => RunActions u p rest (UnlockCache s) x

/-- The outside world after `n` idle ticks: `n` sleeps of 30 milliseconds. -/
def IdleEffect {σ ω : Type} (u : Collaborators σ ω) : Nat → ω → ω
  | 0, x => x
  | n + 1, x => IdleEffect u n (u.Sleep 30 x)

end FGitSourceControlLocksWorker

/-- The state after `Stop()` was called on the first worker. -/
def StoppedWorker : System :=
  { Runnable := some (FGitSourceControlLocksWorker.Stop
      (FGitSourceControlLocksWorker.Construct SampleSettings)),
    Constructed := 1 }

/-- A call of `AddOnScreenDebugMessage`, made by the sweep branch only. -/
def Event.IsSweepMessage {σ : Type} : Event σ → Bool
  | Event.AddOnScreenDebugMessage _ => true
  | _ => false

/-- Quiet collaborators whose `RunCommand` reports the given outcome. -/
def WithOutcome (o : RunCommandOutcome) : Collaborators Unit Unit :=
  { QuietCollaborators with RunCommand := fun _ _ _ _ _ x => (o, x) }

/-! ## The operation workers of `GitSourceControlOperations.cpp` -/

/-- What the operations read of a cached file state (`ISourceControlState`): the
file name and the answers of the predicates the operations ask. -/
structure FileState where
  Filename : String
  IsAdded : Bool
  IsModified : Bool
  CanRevert : Bool
  IsSourceControlled : Bool
  IsCheckedOut : Bool
deriving DecidableEq, Repr

/-- The functions called by the operation workers whose bodies are outside the
sources at hand, on top of those of `Collaborators`: helpers of
`GitSourceControlUtils`, the source-control provider, `FPaths`, and the two
`FString` operations `StartsWith` and `operator==` (the latter is what
`TArray::RemoveSwap` compares with). -/
structure OperationCollaborators (σ ω : Type) extends Collaborators σ ω where
  RelativeFilenames : List String → String → List String
  CacheLock : List String → ω → ω
  CacheLockRemove : List String → ω → ω
  IsRelative : String → Bool
  FileExists : String → ω → Bool
  StartsWith : String → String → Bool
  Equals : String → String → Bool
  GetFilesInCache : ω → List String
  GetState : List String → ω → List FileState

/-- The fields of `FGitSourceControlCommand` that the operations modelled here
read or write. The message arrays `InfoMessages` and `ErrorMessages` are filled
by the callees and not read by these operations; they are left out. -/
structure FGitSourceControlCommand where
  PathToGitBinary : String
  PathToRepositoryRoot : String
  bUsingGitLfsLocking : Bool
  Files : List String
  bCommandSuccessful : Bool
deriving DecidableEq, Repr

/-- One call made by an operation worker. The two edits of the lock cache carry
the answer `IsWrittingCache()` would give while the edit is made. -/
inductive OperationEvent where
  | GetSubModulesRoots
  | FindRepoRoot (File RepoRoot : String)
  | RelativeFilenames (Files : List String) (RelativeTo : String)
  | IsWrittingCache (Result : Bool)
  | LockCache
  | CacheLock (Files : List String) (GuardHeld : Bool)
  | CacheLockRemove (Files : List String) (GuardHeld : Bool)
  | UnlockCache
  | RunCommand (InCommand PathToGitBinary RepositoryRoot : String)
      (InParameters InFiles : List String)
  | PushCommand (InCommand PathToGitBinary RepositoryRoot : String)
      (InParameters InFiles : List String)
  | RunUpdateStatus (PathToGitBinary RepoRoot : String) (UsingLfsLocking : Bool)
      (Files : List String)
  | GetLockedFiles (Files : List String)
  | GetMissingVsExistingFiles (Files : List String)
deriving DecidableEq, Repr

/-- How a call of an operation ends when no other thread takes a step: it
returns, or its busy wait `while (IsWrittingCache()) {}` never ends, or it
dereferences a null `Runnable`. -/
inductive Completion (α : Type) where
  | Returns (value : α)
  | Spins
  | Crashes
deriving DecidableEq, Repr

/-- The array after `TArray::RemoveSwap(Item)`, from position `kept.length` on:
every element equal to the item is removed and its place is taken by the last
element, which is examined next. The first argument bounds the elements left to
examine. -/
def RemoveSwapFrom (Equals : String → String → Bool) (Item : String) :
    Nat → List String → List String → List String
  | 0, kept, rest => kept ++ rest
  | _ + 1, kept, [] => kept
  | fuel + 1, kept, x :: rest =>
    if Equals x Item then
      match rest.getLast? with
      | none => kept
      | some last => RemoveSwapFrom Equals Item fuel kept (last :: rest.dropLast)
    else
      RemoveSwapFrom Equals Item fuel (kept ++ [x]) rest

/-- The array after `TArray::RemoveSwap(Item)`. -/
def RemoveSwap (Equals : String → String → Bool) (Item : String) (Array : List String) :
    List String :=
  RemoveSwapFrom Equals Item Array.length [] Array

/-- The selection of the files of one root, the inner loop
`for (const auto& File : InFiles)` of every partition loop
(GitSourceControlOperations.cpp:370-381 and its copies): a relative file is taken
when it exists under the root, another file when its name starts with the root. -/
def SelectFiles {σ ω : Type} (u : OperationCollaborators σ ω) (x : ω)
    (PathToRepositoryRoot : String) (InFiles : List String) : List String :=
  InFiles.filter (fun File =>
    if u.IsRelative File then u.FileExists (PathToRepositoryRoot ++ "/" ++ File) x
    else u.StartsWith File PathToRepositoryRoot)

/-- The loop `for (const auto& File : Files) InFiles.RemoveSwap(File, true)`
(GitSourceControlOperations.cpp:383-386 and its copies). -/
def RemoveSelected (Equals : String → String → Bool) :
    List String → List String → List String
  | [], InFiles => InFiles
  | File :: rest, InFiles => RemoveSelected Equals rest (RemoveSwap Equals File InFiles)

/-- One turn of a partition loop: the root, the files still unassigned when the
root is visited, and the files selected for it. -/
structure RootVisit where
  Root : String
  Candidates : List String
  Files : List String
deriving DecidableEq, Repr

/-- The loop `for (const auto& Sub : AllProjects)` shared by the operation
workers (GitSourceControlOperations.cpp:366-391 and its copies), for any loop
body: the root of each entry, the selection of its files, the `continue` on an
empty selection where the worker has one, the removal of the selected files from
`InFiles`, then the body on the root and its files. `β` is the state the body
works on and `World` the outside world in it. -/
def PartitionLoop {σ ω β : Type} (u : OperationCollaborators σ ω) (World : β → ω)
    (PathToRepositoryRoot : String) (SkipsEmpty : Bool)
    (Body : String → List String → β → β) :
    List String → List String → β → β × List RootVisit
  | [], _, st => (st, [])
  | Sub :: rest, InFiles, st =>
    let Root := FGitSourceControlLocksWorker.SubRepoRoot PathToRepositoryRoot Sub
    let Files := SelectFiles u (World st) Root InFiles
    if SkipsEmpty && Files.isEmpty then
      let k := PartitionLoop u World PathToRepositoryRoot SkipsEmpty Body rest InFiles st
      (k.1, ⟨Root, InFiles, Files⟩ :: k.2)
    else
      let k := PartitionLoop u World PathToRepositoryRoot SkipsEmpty Body rest
        (RemoveSelected u.Equals Files InFiles) (Body Root Files st)
      (k.1, ⟨Root, InFiles, Files⟩ :: k.2)

/-- What an operation worker carries through its `Execute`: the flag
`InCommand.bCommandSuccessful`, the member array `States`, the outside world and
the calls made so far, oldest first. -/
structure OperationState (σ ω : Type) where
  bCommandSuccessful : Bool
  States : List σ
  World : ω
  Calls : List OperationEvent

/-- A call `GitSourceControlUtils::RunCommand(Name, PathToGitBinary, Root, {},
Files, ...)` from an operation, with `InCommand.bCommandSuccessful &= ...` when
`Accumulates` and `InCommand.bCommandSuccessful = ...` otherwise. -/
def OperationState.RunCommand {σ ω : Type} (u : OperationCollaborators σ ω)
    (Accumulates : Bool) (Name PathToGitBinary Root : String) (Files : List String)
    (st : OperationState σ ω) : OperationState σ ω :=
  let r := u.RunCommand Name PathToGitBinary Root [] Files st.World
  { st with
    bCommandSuccessful :=
      if Accumulates then st.bCommandSuccessful && r.1.Success else r.1.Success
    World := r.2
    Calls := st.Calls ++ [OperationEvent.RunCommand Name PathToGitBinary Root [] Files] }

/-- A call `GitSourceControlUtils::RunUpdateStatus(PathToGitBinary, Root,
bUsingGitLfsLocking, Files, ErrorMessages, States)` whose result is not used. -/
def OperationState.RunUpdateStatus {σ ω : Type} (u : OperationCollaborators σ ω)
    (PathToGitBinary Root : String) (UsingLfsLocking : Bool) (Files : List String)
    (st : OperationState σ ω) : OperationState σ ω :=
  let r := u.RunUpdateStatus PathToGitBinary Root UsingLfsLocking Files st.States st.World
  { st with
    States := r.1
    World := r.2
    Calls := st.Calls ++
      [OperationEvent.RunUpdateStatus PathToGitBinary Root UsingLfsLocking Files] }

/-- The function `GetLockedFiles` (GitSourceControlOperations.cpp:156-173): the
names of the given files whose cached state is checked out. -/
def GetLockedFiles {σ ω : Type} (u : OperationCollaborators σ ω) (x : ω)
    (InFiles : List String) : List String :=
  ((u.GetState InFiles x).filter (fun State => State.IsCheckedOut)).map
    (fun State => State.Filename)

/-- The loop over `LocalStates` in `GetMissingVsExistingFiles`
(GitSourceControlOperations.cpp:460-485), with the three output arrays as they
grow: missing, all existing, other than added existing. -/
def ClassifyStates {σ ω : Type} (u : OperationCollaborators σ ω) (x : ω) :
    List FileState → List String → List String → List String →
    List String × List String × List String
  | [], Missing, AllExisting, OtherThanAdded => (Missing, AllExisting, OtherThanAdded)
  | State :: rest, Missing, AllExisting, OtherThanAdded =>
    if u.FileExists State.Filename x then
      if State.IsAdded then
        ClassifyStates u x rest Missing (AllExisting ++ [State.Filename]) OtherThanAdded
      else if State.IsModified then
        ClassifyStates u x rest Missing (AllExisting ++ [State.Filename])
          (OtherThanAdded ++ [State.Filename])
      else if State.CanRevert then
        ClassifyStates u x rest Missing AllExisting (OtherThanAdded ++ [State.Filename])
      else
        ClassifyStates u x rest Missing AllExisting OtherThanAdded
    else
      if State.IsSourceControlled then
        ClassifyStates u x rest (Missing ++ [State.Filename]) AllExisting OtherThanAdded
      else
        ClassifyStates u x rest Missing AllExisting OtherThanAdded

/-- The function `GetMissingVsExistingFiles`
(GitSourceControlOperations.cpp:451-486): with no file given it works on every
file of the status cache. -/
def GetMissingVsExistingFiles {σ ω : Type} (u : OperationCollaborators σ ω) (x : ω)
    (InFiles : List String) : List String × List String × List String :=
  let Files := if InFiles.length > 0 then InFiles else u.GetFilesInCache x
  ClassifyStates u x (u.GetState Files x) [] [] []

namespace FGitCheckOutWorker

open FGitSourceControlLocksWorker

/-- The loop `for (const auto& File : RelativeFiles)` of `Execute`
(GitSourceControlOperations.cpp:115-126), with the flag
`InCommand.bCommandSuccessful` as it stands. -/
def LockFiles {σ ω : Type} (u : OperationCollaborators σ ω) (p : Platform)
    (PathToGitBinary PathToRepositoryRoot : String) :
    List String → Bool → System → ω → Completion (Bool × System × ω × List OperationEvent)
  | [], ok, s, x => Completion.Returns (ok, s, x, [])
  | File :: rest, ok, s, x =>
    let OneFile := [File]
    if IsWrittingCache s then Completion.Spins
    else
      let s1 := LockCache s
      let x1 := u.CacheLock OneFile x
      let s2 := UnlockCache s1
      let r := u.RunCommand "checkout" PathToGitBinary PathToRepositoryRoot [] OneFile x1
      match PushCommand p "lfs lock" PathToGitBinary PathToRepositoryRoot [] OneFile s2 with
      | none => Completion.Crashes
      | some s3 =>
        match LockFiles u p PathToGitBinary PathToRepositoryRoot rest (ok && r.1.Success)
            s3 r.2 with
        | Completion.Returns k =>
          Completion.Returns (k.1, k.2.1, k.2.2.1,
            [OperationEvent.IsWrittingCache false,
             OperationEvent.LockCache,
             OperationEvent.CacheLock OneFile (IsWrittingCache s1),
             OperationEvent.UnlockCache,
             OperationEvent.RunCommand "checkout" PathToGitBinary PathToRepositoryRoot []
               OneFile,
             OperationEvent.PushCommand "lfs lock" PathToGitBinary PathToRepositoryRoot []
               OneFile] ++ k.2.2.2)
        | Completion.Spins => Completion.Spins
        | Completion.Crashes => Completion.Crashes

/-- The repository root `Execute` works under: the command's root, passed
through `FindRepoRoot` with the first file when there is one
(GitSourceControlOperations.cpp:97-100). -/
def ResolvedRoot {σ ω : Type} (u : OperationCollaborators σ ω)
    (InCommand : FGitSourceControlCommand) (x : ω) : String :=
  match InCommand.Files with
  | [] => InCommand.PathToRepositoryRoot
  | File :: _ => u.FindRepoRoot File InCommand.PathToRepositoryRoot x

/-- The call of `FindRepoRoot` made for the first file, when there is one. -/
def ResolveCalls (InCommand : FGitSourceControlCommand) : List OperationEvent :=
  match InCommand.Files with
  | [] => []
  | File :: _ => [OperationEvent.FindRepoRoot File InCommand.PathToRepositoryRoot]

/-- The function `FGitCheckOutWorker::Execute`
(GitSourceControlOperations.cpp:91-137): the returned flag, the member `States`,
the worker state, the outside world and the calls made. -/
def Execute {σ ω : Type} (u : OperationCollaborators σ ω) (p : Platform)
    (InCommand : FGitSourceControlCommand) (States : List σ) (s : System) (x : ω) :
    Completion (Bool × List σ × System × ω × List OperationEvent) :=
  let PathToRepositoryRoot := ResolvedRoot u InCommand x
  if InCommand.bUsingGitLfsLocking then
    let RelativeFiles := u.RelativeFilenames InCommand.Files PathToRepositoryRoot
    match LockFiles u p InCommand.PathToGitBinary PathToRepositoryRoot RelativeFiles true s x with
    | Completion.Returns k =>
      let r := u.RunUpdateStatus InCommand.PathToGitBinary PathToRepositoryRoot
        InCommand.bUsingGitLfsLocking InCommand.Files States k.2.2.1
      Completion.Returns (k.1, r.1, k.2.1, r.2,
        ResolveCalls InCommand ++
        [OperationEvent.RelativeFilenames InCommand.Files PathToRepositoryRoot] ++
        k.2.2.2 ++
        [OperationEvent.RunUpdateStatus InCommand.PathToGitBinary PathToRepositoryRoot
          InCommand.bUsingGitLfsLocking InCommand.Files])
    | Completion.Spins => Completion.Spins
    | Completion.Crashes => Completion.Crashes
  else
    Completion.Returns (false, States, s, x, ResolveCalls InCommand)

end FGitCheckOutWorker

namespace FGitCheckInWorker

open FGitSourceControlLocksWorker

/-- The loop `for (const auto& RelativeFile : RelativeFiles)` of `Execute`
(GitSourceControlOperations.cpp:322-333). -/
def UnlockFiles {σ ω : Type} (u : OperationCollaborators σ ω) (p : Platform)
    (PathToGitBinary PathToRepositoryRoot : String) :
    List String → System → ω → Completion (System × ω × List OperationEvent)
  | [], s, x => Completion.Returns (s, x, [])
  | RelativeFile :: rest, s, x =>
    let OneFile := [RelativeFile]
    if IsWrittingCache s then Completion.Spins
    else
      let s1 := LockCache s
      let x1 := u.CacheLockRemove OneFile x
      let s2 := UnlockCache s1
      match PushCommand p "lfs unlock" PathToGitBinary PathToRepositoryRoot [] OneFile s2 with
      | none => Completion.Crashes
      | some s3 =>
        match UnlockFiles u p PathToGitBinary PathToRepositoryRoot rest s3 x1 with
        | Completion.Returns k =>
          Completion.Returns (k.1, k.2.1,
            [OperationEvent.IsWrittingCache false,
             OperationEvent.LockCache,
             OperationEvent.CacheLockRemove OneFile (IsWrittingCache s1),
             OperationEvent.UnlockCache,
             OperationEvent.PushCommand "lfs unlock" PathToGitBinary PathToRepositoryRoot []
               OneFile] ++ k.2.2)
        | Completion.Spins => Completion.Spins
        | Completion.Crashes => Completion.Crashes

/-- The block of `Execute` that unlocks the files just checked in
(GitSourceControlOperations.cpp:316-335), entered when the push has succeeded;
it holds the only call of `CacheLockRemove` in `Execute`. The test
`LockedFiles.Num() >= 0` always holds. -/
def UnlockCheckedInFiles {σ ω : Type} (u : OperationCollaborators σ ω) (p : Platform)
    (PathToGitBinary PathToRepositoryRoot : String) (Files : List String) (s : System)
    (x : ω) : Completion (System × ω × List OperationEvent) :=
  let LockedFiles := GetLockedFiles u x Files
  if 0 ≤ LockedFiles.length then
    let RelativeFiles := u.RelativeFilenames LockedFiles PathToRepositoryRoot
    match UnlockFiles u p PathToGitBinary PathToRepositoryRoot RelativeFiles s x with
    | Completion.Returns k =>
      Completion.Returns (k.1, k.2.1,
        [OperationEvent.GetLockedFiles Files,
         OperationEvent.RelativeFilenames LockedFiles PathToRepositoryRoot] ++ k.2.2)
    | Completion.Spins => Completion.Spins
    | Completion.Crashes => Completion.Crashes
  else
    Completion.Returns (s, x, [OperationEvent.GetLockedFiles Files])

end FGitCheckInWorker

namespace FGitRevertWorker

/-- The body of the loop of `Execute` for one root and its selected files
(GitSourceControlOperations.cpp:521-574): the files are sorted by state and
`rm`, `reset` and `checkout` are run on the non-empty sorts, then the status is
updated. -/
def RevertFiles {σ ω : Type} (u : OperationCollaborators σ ω)
    (InCommand : FGitSourceControlCommand) (PathToRepositoryRoot : String)
    (Files : List String) (st : OperationState σ ω) : OperationState σ ω :=
  let c := GetMissingVsExistingFiles u st.World Files
  let MissingFiles := c.1
  let AllExistingFiles := c.2.1
  let OtherThanAddedExistingFiles := c.2.2
  let st0 : OperationState σ ω :=
    { st with Calls := st.Calls ++ [OperationEvent.GetMissingVsExistingFiles Files] }
  let st1 := if MissingFiles.length > 0 then
      st0.RunCommand u true "rm" InCommand.PathToGitBinary PathToRepositoryRoot MissingFiles
    else st0
  let st2 := if AllExistingFiles.length > 0 then
      st1.RunCommand u true "reset" InCommand.PathToGitBinary PathToRepositoryRoot
        AllExistingFiles
    else st1
  let st3 := if OtherThanAddedExistingFiles.length > 0 then
      st2.RunCommand u true "checkout" InCommand.PathToGitBinary PathToRepositoryRoot
        OtherThanAddedExistingFiles
    else st2
  let FilesToUpdate := if Files.length ≤ 0 then
      Files ++ MissingFiles ++ AllExistingFiles ++ OtherThanAddedExistingFiles
    else Files
  st3.RunUpdateStatus u InCommand.PathToGitBinary PathToRepositoryRoot
    InCommand.bUsingGitLfsLocking FilesToUpdate

/-- The function `FGitRevertWorker::Execute`
(GitSourceControlOperations.cpp:493-578); its loop has no `continue` on an empty
selection. The returned flag is `bCommandSuccessful` of the final state. -/
def Execute {σ ω : Type} (u : OperationCollaborators σ ω)
    (InCommand : FGitSourceControlCommand) (States : List σ) (x : ω) :
    OperationState σ ω × List RootVisit :=
  let AllProjects := u.GetSubModulesRoots x ++ [""]
  PartitionLoop u (fun st => st.World) InCommand.PathToRepositoryRoot false
    (RevertFiles u InCommand) AllProjects InCommand.Files
    { bCommandSuccessful := true, States := States, World := x,
      Calls := [OperationEvent.GetSubModulesRoots] }

end FGitRevertWorker

namespace FGitMarkForAddWorker

/-- The body of the loop of `Execute` for one root and its selected files
(GitSourceControlOperations.cpp:387-390). -/
def AddFiles {σ ω : Type} (u : OperationCollaborators σ ω)
    (InCommand : FGitSourceControlCommand) (PathToRepositoryRoot : String)
    (Files : List String) (st : OperationState σ ω) : OperationState σ ω :=
  (st.RunCommand u false "add" InCommand.PathToGitBinary PathToRepositoryRoot
    Files).RunUpdateStatus u InCommand.PathToGitBinary PathToRepositoryRoot
    InCommand.bUsingGitLfsLocking Files

/-- The function `FGitMarkForAddWorker::Execute`
(GitSourceControlOperations.cpp:357-393). The returned flag is
`bCommandSuccessful` of the final state. -/
def Execute {σ ω : Type} (u : OperationCollaborators σ ω)
    (InCommand : FGitSourceControlCommand) (States : List σ) (x : ω) :
    OperationState σ ω × List RootVisit :=
  let AllProjects := u.GetSubModulesRoots x ++ [""]
  PartitionLoop u (fun st => st.World) InCommand.PathToRepositoryRoot true
    (AddFiles u InCommand) AllProjects InCommand.Files
    { bCommandSuccessful := InCommand.bCommandSuccessful, States := States, World := x,
      Calls := [OperationEvent.GetSubModulesRoots] }

end FGitMarkForAddWorker

/-- The call is a poll, a set or a clear of the guard, or an edit of the lock
cache. -/
def OperationEvent.IsGuardStep : OperationEvent → Bool
  | OperationEvent.IsWrittingCache _ => true
  | OperationEvent.LockCache => true
  | OperationEvent.UnlockCache => true
  | OperationEvent.CacheLock _ _ => true
  | OperationEvent.CacheLockRemove _ _ => true
  | _ => false

/-- The call is an edit of the lock cache. -/
def OperationEvent.IsCacheEdit : OperationEvent → Bool
  | OperationEvent.CacheLock _ _ => true
  | OperationEvent.CacheLockRemove _ _ => true
  | _ => false

/-- Every edit of the lock cache in a list of calls is made inside a critical
section: the guard calls and edits come only in groups of four, a poll that
answers `false`, `LockCache`, one edit during which the guard is held, and
`UnlockCache` right after it. -/
def GuardedEdits : List OperationEvent → Bool
  | [] => true
  | OperationEvent.IsWrittingCache false :: OperationEvent.LockCache ::
      OperationEvent.CacheLock _ true :: OperationEvent.UnlockCache :: rest =>
    GuardedEdits rest
  | OperationEvent.IsWrittingCache false :: OperationEvent.LockCache ::
      OperationEvent.CacheLockRemove _ true :: OperationEvent.UnlockCache :: rest =>
    GuardedEdits rest
  | e :: rest => !e.IsGuardStep && GuardedEdits rest

/-- The roots and file lists of the `RunCommand` calls for the given git
command in a list of calls, in order. -/
def CommandFiles (Name : String) : List OperationEvent → List (String × List String)
  | [] => []
  | OperationEvent.RunCommand InCommand _ RepositoryRoot _ InFiles :: rest =>
    if InCommand = Name then (RepositoryRoot, InFiles) :: CommandFiles Name rest
    else CommandFiles Name rest
  | _ :: rest => CommandFiles Name rest

/-- The command queue of the worker, empty when there is no worker. -/
def System.Queue (s : System) : List COMMAND :=
  match s.Runnable with
  | some w => w.CommandQueue
  | none => []

/-- Quiet collaborators for the operations, over a one-point world: file names
are taken as they are, nothing is relative, every file exists, a file belongs to
a root when the root's characters begin the file's, `==` is equality of strings,
and every file asked about is modified and checked out. -/
def QuietOperations (Cache : List String) (subs : List String) :
    OperationCollaborators Unit Unit :=
  { WithSubModules subs with
    RelativeFilenames := fun Files _ => Files
    CacheLock := fun _ x => x
    CacheLockRemove := fun _ x => x
    IsRelative := fun _ => false
    FileExists := fun _ _ => true
    StartsWith := fun File Root => decide (Root.data <+: File.data)
    Equals := fun a b => decide (a = b)
    GetFilesInCache := fun _ => Cache
    GetState := fun Files _ => Files.map (fun File => ⟨File, false, true, true, true, true⟩) }

/-- A check-out of two files with Git LFS locking. -/
def SampleCheckOut : FGitSourceControlCommand :=
  { PathToGitBinary := "git", PathToRepositoryRoot := "R", bUsingGitLfsLocking := true,
    Files := ["a", "b"], bCommandSuccessful := false }

/-- A request on the single file `R/a.uasset` of the top-level repository. -/
def SampleRequest : FGitSourceControlCommand :=
  { PathToGitBinary := "git", PathToRepositoryRoot := "R", bUsingGitLfsLocking := true,
    Files := ["R/a.uasset"], bCommandSuccessful := false }

/-- The six calls `FGitCheckOutWorker::Execute` makes for one relative file, in
order, with the answer `IsWrittingCache()` would give during the edit. -/
def LockCalls (PathToGitBinary PathToRepositoryRoot : String) (GuardHeld : Bool)
    (File : String) : List OperationEvent :=
  [OperationEvent.IsWrittingCache false,
   OperationEvent.LockCache,
   OperationEvent.CacheLock [File] GuardHeld,
   OperationEvent.UnlockCache,
   OperationEvent.RunCommand "checkout" PathToGitBinary PathToRepositoryRoot [] [File],
   OperationEvent.PushCommand "lfs lock" PathToGitBinary PathToRepositoryRoot [] [File]]

/-- The five calls `FGitCheckInWorker::Execute` makes for one file to unlock, in
order, with the answer `IsWrittingCache()` would give during the edit. -/
def UnlockCalls (PathToGitBinary PathToRepositoryRoot : String) (GuardHeld : Bool)
    (File : String) : List OperationEvent :=
  [OperationEvent.IsWrittingCache false,
   OperationEvent.LockCache,
   OperationEvent.CacheLockRemove [File] GuardHeld,
   OperationEvent.UnlockCache,
   OperationEvent.PushCommand "lfs unlock" PathToGitBinary PathToRepositoryRoot [] [File]]

/-- One queued git command per file, each on that file alone and with no
parameters. -/
def CommandPerFile (Name PathToGitBinary PathToRepositoryRoot : String)
    (Files : List String) : List COMMAND :=
  Files.map (fun File => ⟨Name, PathToGitBinary, PathToRepositoryRoot, [], [File]⟩)

/-- A request to add two files, the second under the sub-repository `Sub`; its
name also starts with the top-level root `R`. -/
def SampleAdd : FGitSourceControlCommand :=
  { PathToGitBinary := "git", PathToRepositoryRoot := "R", bUsingGitLfsLocking := false,
    Files := ["R/a.uasset", "R/Sub/b.uasset"], bCommandSuccessful := false }

/-- The two calls `FGitMarkForAddWorker::Execute` makes for a root, none when no
file was selected for it. -/
def AddCalls (InCommand : FGitSourceControlCommand) (v : RootVisit) : List OperationEvent :=
  if v.Files.isEmpty then []
  else
    [OperationEvent.RunCommand "add" InCommand.PathToGitBinary v.Root [] v.Files,
     OperationEvent.RunUpdateStatus InCommand.PathToGitBinary v.Root
       InCommand.bUsingGitLfsLocking v.Files]

namespace FGitSourceControlLocksWorker

end FGitSourceControlLocksWorker

/-! ## Lemmas on the loop -/

namespace FGitSourceControlLocksWorker

/-- With no stop request, as many iterations as there are commands at the front
of the queue run exactly those commands, in order, and remove them. -/
theorem RunIterations_drain {σ ω : Type} (u : Collaborators σ ω) (cs rest : List COMMAND) :
    ∀ (w : FGitSourceControlLocksWorker) (x : ω), w.StopTaskCounter = 0 →
      w.CommandQueue = cs ++ rest →
      RunIterations u cs.length w x =
        ({ w with CommandQueue := rest }, CommandEffects u cs x, cs.map (CommandEvent σ)) := by
  induction cs with
  | nil =>
    intro w x _ hq
    cases w
    simp only [List.nil_append] at hq
    subst hq
    rfl
  | cons c cs ih =>
    intro w x hstop hq
    obtain ⟨st, cur, q, bin, root, user, m⟩ := w
    simp only [List.cons_append] at hstop hq
    subst hstop hq
    have h1 := ih ⟨0, cur, cs ++ rest, bin, root, user, m⟩ (CommandEffect u c x) rfl rfl
    simp only [List.length_cons, RunIterations, if_true, RunLoopBody, h1,
      CommandEffects, List.map_cons, List.singleton_append]

/-- Pushing a list of commands onto an existing worker appends the list. -/
theorem PushAll_existing (p : Platform) (cs : List COMMAND) :
    ∀ (s : System) (w : FGitSourceControlLocksWorker), s.Runnable = some w →
      PushAll p cs s =
        some { s with Runnable := some { w with CommandQueue := w.CommandQueue ++ cs } } := by
  induction cs with
  | nil =>
    intro s w hw
    cases s
    cases w
    simp only at hw
    subst hw
    simp [PushAll]
  | cons c cs ih =>
    intro s w hw
    simp only [PushAll, PushCommand, hw, Option.isNone_some, Bool.false_eq_true, if_false]
    rw [ih _ _ rfl]
    simp

/-! ## Claims -/

/-- C1: commands pushed in order onto a running worker with an empty queue and
no stop request are accepted by `PushCommand`, and the next `|cs|` loop
iterations issue exactly the calls `RunCommand(cs[0])`, ..., `RunCommand(cs[|cs|-1])`
in that order and nothing else, leaving the queue empty. -/
theorem pushed_commands_run_once_in_order {σ ω : Type} (u : Collaborators σ ω) (p : Platform)
    (s : System) (w : FGitSourceControlLocksWorker) (x : ω) (cs : List COMMAND)
    (hw : s.Runnable = some w) (hq : w.CommandQueue = []) (hstop : w.StopTaskCounter = 0) :
    PushAll p cs s = some { s with Runnable := some { w with CommandQueue := cs } } ∧
    (RunIterations u cs.length { w with CommandQueue := cs } x).2.2
      = cs.map (CommandEvent σ) ∧
    (∀ i (h : i < cs.length),
      (RunIterations u cs.length { w with CommandQueue := cs } x).2.2.get? i
        = some (Event.RunCommand (cs.get ⟨i, h⟩).Command (cs.get ⟨i, h⟩).PathToGitBinary
            (cs.get ⟨i, h⟩).RepositoryRoot (cs.get ⟨i, h⟩).Parameters (cs.get ⟨i, h⟩).Files)) ∧
    (RunIterations u cs.length { w with CommandQueue := cs } x).1.CommandQueue = [] ∧
    (RunIterations u cs.length { w with CommandQueue := cs } x).1 = w := by
  have hpush := PushAll_existing p cs s w hw
  rw [hq, List.nil_append] at hpush
  have hrun := RunIterations_drain u cs [] { w with CommandQueue := cs } x hstop (by simp)
  refine ⟨hpush, ?_, ?_, ?_, ?_⟩
  · rw [hrun]
  · intro i h
    rw [hrun]
    simp [List.getElem?_eq_getElem h, CommandEvent]
  · rw [hrun]
  · rw [hrun]
    cases w
    simp only at hq
    subst hq
    rfl

/-- Witness of C1: three commands pushed onto a fresh worker. -/
theorem pushed_commands_run_once_in_order_witness :
    PushAll ThreadedPlatform SampleCommands FreshWorker
      = some { FreshWorker with
          Runnable := some { Construct SampleSettings with CommandQueue := SampleCommands } } ∧
    (RunIterations QuietCollaborators SampleCommands.length
        { Construct SampleSettings with CommandQueue := SampleCommands } ()).2.2
      = SampleCommands.map (CommandEvent Unit) :=
  have h := pushed_commands_run_once_in_order QuietCollaborators ThreadedPlatform FreshWorker
    (Construct SampleSettings) () SampleCommands rfl rfl rfl
  ⟨h.1, h.2.1⟩

/-- C2: with a non-empty queue and no stop request, one loop iteration runs
exactly the head command and nothing else: its only call is that `RunCommand`
(no refresh, no pull or submodule update, no rescan, no sleep), the head is
removed, and `CurIteration` keeps its value. Conversely an iteration that
issues any call of a periodic branch, or changes `CurIteration`, started from an
empty queue. -/
theorem queued_command_excludes_periodic_work {σ ω : Type} (u : Collaborators σ ω)
    (w : FGitSourceControlLocksWorker) (x : ω) (c : COMMAND) (rest : List COMMAND)
    (hq : w.CommandQueue = c :: rest) (hstop : w.StopTaskCounter = 0) :
    RunIterations u 1 w x
      = ({ w with CommandQueue := rest }, CommandEffect u c x, [CommandEvent σ c]) ∧
    (RunIterations u 1 w x).1.CurIteration = w.CurIteration ∧
    (∀ e ∈ (RunIterations u 1 w x).2.2, e.IsPeriodicCall = false) ∧
    (∀ (w0 : FGitSourceControlLocksWorker) (x0 : ω),
      ((∃ e ∈ (RunLoopBody u w0 x0).2.2, e.IsPeriodicCall = true) ∨
        (RunLoopBody u w0 x0).1.CurIteration ≠ w0.CurIteration) →
      w0.CommandQueue = []) := by
  have hrun : RunIterations u 1 w x
      = ({ w with CommandQueue := rest }, CommandEffect u c x, [CommandEvent σ c]) := by
    simp only [RunIterations, hstop, if_true, RunLoopBody, hq, List.append_nil]
  refine ⟨hrun, ?_, ?_, ?_⟩
  · rw [hrun]
  · rw [hrun]
    intro e he
    simp only [List.mem_singleton] at he
    subst he
    rfl
  · intro w0 x0 h
    cases hq0 : w0.CommandQueue with
    | nil => rfl
    | cons c0 rest0 =>
      exfalso
      simp only [RunLoopBody, hq0, List.mem_singleton, exists_eq_left, CommandEvent,
        Event.IsPeriodicCall, Bool.false_eq_true, ne_eq, not_true_eq_false, or_self] at h

/-- Witness of C2: a worker with three queued commands and `CurIteration = 0`
runs the first command only. -/
theorem queued_command_excludes_periodic_work_witness :
    RunIterations QuietCollaborators 1
        { Construct SampleSettings with CommandQueue := SampleCommands, CurIteration := 0 } ()
      = ({ Construct SampleSettings with
            CommandQueue := SampleCommands.tail, CurIteration := 0 }, (),
          [Event.RunCommand "lfs lock" "git" "R" [] ["a"]]) :=
  (queued_command_excludes_periodic_work QuietCollaborators
    { Construct SampleSettings with CommandQueue := SampleCommands, CurIteration := 0 } ()
    { Command := "lfs lock", PathToGitBinary := "git", RepositoryRoot := "R",
      Parameters := [], Files := ["a"] }
    SampleCommands.tail rfl rfl).1

/-- The sweep loop issues one rescan per listed name, in order. -/
theorem RescanProjects_calls {σ ω : Type} (u : Collaborators σ ω) (bin root : String)
    (subs : List String) :
    ∀ (States : List σ) (x : ω),
      (RescanProjects u bin root subs States x).2.2 =
        subs.map (fun sub => Event.RunUpdateStatus bin (SubRepoRoot root sub) true
          [SubRepoRoot root sub ++ "/"]) := by
  induction subs with
  | nil => intro States x; rfl
  | cons sub rest ih =>
    intro States x
    simp only [RescanProjects, List.map_cons, ih]

/-- The root used for a listed name, written out. -/
theorem SubRepoRoot_eq (root sub : String) :
    SubRepoRoot root sub = if sub = "" then root else root ++ "/" ++ sub := by
  unfold SubRepoRoot
  by_cases h : sub = ""
  · simp [h]
  · simp [h, String.append_assoc]

/-- One iteration entered with an empty queue and `CurIteration = -1`: the calls
of the full sweep and the counter afterwards. -/
theorem sweep_iteration {σ ω : Type} (u : Collaborators σ ω)
    (w : FGitSourceControlLocksWorker) (x : ω)
    (hq : w.CommandQueue = []) (hc : w.CurIteration = -1) (hstop : w.StopTaskCounter = 0) :
    (RunIterations u 1 w x).1 = { w with CurIteration := 0 } ∧
    (RunIterations u 1 w x).2.2 =
      [Event.AddOnScreenDebugMessage "Updating Submodules to the latest version!",
       Event.RunCommand "pull" w.PathToGitBinary w.PathToRepositoryRoot
         ["--rebase", "--autostash", "origin", "HEAD"] [],
       Event.RunCommand "submodule update" w.PathToGitBinary w.PathToRepositoryRoot
         ["--recursive", "--remote"] [],
       Event.GetSubModulesRoots]
      ++ (u.GetSubModulesRoots (SweepCommandsEffect u w x)).map
          (fun sub => Event.RunUpdateStatus w.PathToGitBinary
            (if sub = "" then w.PathToRepositoryRoot else w.PathToRepositoryRoot ++ "/" ++ sub)
            true
            [(if sub = "" then w.PathToRepositoryRoot
              else w.PathToRepositoryRoot ++ "/" ++ sub) ++ "/"])
      ++ [Event.RunUpdateStatus w.PathToGitBinary w.PathToRepositoryRoot true
            [w.PathToRepositoryRoot ++ "/"]] := by
  have hadv : Advance (-1) = 0 := by decide
  have hne : ¬ ((-1 : Int) = 0) := by decide
  constructor
  · simp only [RunIterations, hstop, if_true, RunLoopBody, hq, hc, hne, if_false, hadv]
  · simp only [RunIterations, hstop, if_true, RunLoopBody, hq, hc, hne, if_false,
      RescanProjects_calls, SweepCommandsEffect, List.map_append, List.map_cons, List.map_nil,
      SubRepoRoot_eq, List.append_nil, List.append_assoc]

/-- The roots of the rescans of two lists of calls put together. -/
theorem RescanRoots_append {σ : Type} (l1 l2 : List (Event σ)) :
    RescanRoots (l1 ++ l2) = RescanRoots l1 ++ RescanRoots l2 := by
  induction l1 with
  | nil => rfl
  | cons e l ih => cases e <;> simp [RescanRoots, ih]

/-- The roots of a list of rescans. -/
theorem RescanRoots_map {σ : Type} (bin : String) (f : String → String)
    (g : String → List String) (l : List String) :
    RescanRoots (l.map (fun sub => (Event.RunUpdateStatus bin (f sub) true (g sub) : Event σ)))
      = l.map f := by
  induction l with
  | nil => rfl
  | cons a l ih => simp [RescanRoots, ih]

/-- C3 (amended): one loop iteration entered with an empty queue and
`CurIteration = -1`, where `GetSubModulesRoots` lists `subs`, issues after the
on-screen message exactly one `pull` (parameters `--rebase --autostash origin
HEAD`, no files) and one `submodule update` (parameters `--recursive --remote`,
no files) on the top-level root, asks for the list, and then makes exactly
`|subs| + 1` rescans: one per listed name in order, whose root is
`PathToRepositoryRoot + "/" + sub` for a non-empty name and `PathToRepositoryRoot`
for the empty name, followed by one for `PathToRepositoryRoot`. The counter is
`0` afterwards. -/
theorem full_sweep_calls {σ ω : Type} (u : Collaborators σ ω)
    (w : FGitSourceControlLocksWorker) (x : ω) (subs : List String)
    (hq : w.CommandQueue = []) (hc : w.CurIteration = -1) (hstop : w.StopTaskCounter = 0)
    (hsubs : u.GetSubModulesRoots (SweepCommandsEffect u w x) = subs) :
    (RunIterations u 1 w x).2.2 =
      [Event.AddOnScreenDebugMessage "Updating Submodules to the latest version!",
       Event.RunCommand "pull" w.PathToGitBinary w.PathToRepositoryRoot
         ["--rebase", "--autostash", "origin", "HEAD"] [],
       Event.RunCommand "submodule update" w.PathToGitBinary w.PathToRepositoryRoot
         ["--recursive", "--remote"] [],
       Event.GetSubModulesRoots]
      ++ subs.map
          (fun sub => Event.RunUpdateStatus w.PathToGitBinary
            (if sub = "" then w.PathToRepositoryRoot else w.PathToRepositoryRoot ++ "/" ++ sub)
            true
            [(if sub = "" then w.PathToRepositoryRoot
              else w.PathToRepositoryRoot ++ "/" ++ sub) ++ "/"])
      ++ [Event.RunUpdateStatus w.PathToGitBinary w.PathToRepositoryRoot true
            [w.PathToRepositoryRoot ++ "/"]] ∧
    RescanRoots (RunIterations u 1 w x).2.2 =
      subs.map (fun sub =>
        if sub = "" then w.PathToRepositoryRoot else w.PathToRepositoryRoot ++ "/" ++ sub)
      ++ [w.PathToRepositoryRoot] ∧
    (RunIterations u 1 w x).2.2.countP Event.IsRescan = subs.length + 1 ∧
    (RunIterations u 1 w x).2.2.countP (Event.IsCommandNamed "pull") = 1 ∧
    (RunIterations u 1 w x).2.2.countP (Event.IsCommandNamed "submodule update") = 1 ∧
    (RunIterations u 1 w x).1.CurIteration = 0 := by
  obtain ⟨hw, ht⟩ := sweep_iteration u w x hq hc hstop
  rw [hsubs] at ht
  refine ⟨ht, ?_, ?_, ?_, ?_, ?_⟩
  · rw [ht, RescanRoots_append, RescanRoots_append, RescanRoots_map]
    simp [RescanRoots]
  · rw [ht]
    simp [List.countP_cons, List.countP_append, List.countP_map, Event.IsRescan,
      Function.comp_def]
  · rw [ht]
    simp [List.countP_cons, List.countP_append, List.countP_map, Event.IsCommandNamed,
      Function.comp_def]
  · rw [ht]
    simp [List.countP_cons, List.countP_append, List.countP_map, Event.IsCommandNamed,
      Function.comp_def]
  · rw [hw]

/-- Witness of C3: with two listed sub-repositories the sweep makes three
rescans, for `R/Plugins/A`, `R/Plugins/B` and `R`. -/
theorem full_sweep_calls_witness :
    RescanRoots (RunIterations (WithSubModules ["Plugins/A", "Plugins/B"]) 1
        { Construct SampleSettings with CurIteration := -1 } ()).2.2
      = ["R/Plugins/A", "R/Plugins/B", "R"] ∧
    (RunIterations (WithSubModules ["Plugins/A", "Plugins/B"]) 1
        { Construct SampleSettings with CurIteration := -1 } ()).2.2.countP Event.IsRescan
      = 3 :=
  have h := full_sweep_calls (WithSubModules ["Plugins/A", "Plugins/B"])
    { Construct SampleSettings with CurIteration := -1 } () ["Plugins/A", "Plugins/B"]
    rfl rfl rfl rfl
  ⟨h.2.1.trans (by decide), h.2.2.1⟩

/-- Counterexample to C3 as stated: when `GetSubModulesRoots` lists the empty
name, the rescan made for it uses the root `R`, not `R/`. -/
theorem full_sweep_empty_name_counterexample :
    RescanRoots (RunIterations (WithSubModules [""]) 1
        { Construct SampleSettings with CurIteration := -1 } ()).2.2
      ≠ [""].map (fun sub => "R" ++ "/" ++ sub) ++ ["R"] := by
  decide

/-- The refresh loop handles the changed files one by one and in order: for
each file it resolves the root (starting from the top-level root), rescans
that single file under the resolved root and publishes the states the rescan
returned. -/
theorem RefreshChangedFiles_calls {σ ω : Type} (u : Collaborators σ ω) (bin root : String)
    (ps : List String) :
    ∀ (States : List σ) (x : ω),
      (∃ steps : List (String × List σ), steps.length = ps.length ∧
        (RefreshChangedFiles u bin root ps States x).2.2 =
          (ps.zip steps).flatMap (fun q =>
            [Event.FindRepoRoot q.1 root, Event.RunUpdateStatus bin q.2.1 true [q.1],
             Event.UpdateCachedStates q.2.2]) ∧
        ∀ q ∈ ps.zip steps, ∃ (x1 : ω) (States1 : List σ),
          q.2.1 = u.FindRepoRoot q.1 root x1 ∧
          q.2.2 = (u.RunUpdateStatus bin q.2.1 true [q.1] States1 x1).1) ∧
      (RefreshChangedFiles u bin root ps States x).2.2.countP Event.IsRescan = ps.length ∧
      (RefreshChangedFiles u bin root ps States x).2.2.countP Event.IsPublish = ps.length ∧
      (RefreshChangedFiles u bin root ps States x).2.2.countP Event.IsRefresh = 0 := by
  induction ps with
  | nil =>
    intro States x
    exact ⟨⟨[], rfl, rfl, by simp⟩, rfl, rfl, rfl⟩
  | cons File rest ih =>
    intro States x
    obtain ⟨⟨steps, hlen, hcalls, hsteps⟩, h1, h2, h3⟩ :=
      ih (u.RunUpdateStatus bin (u.FindRepoRoot File root x) true [File] States x).1
        (u.UpdateCachedStates
          (u.RunUpdateStatus bin (u.FindRepoRoot File root x) true [File] States x).1
          (u.RunUpdateStatus bin (u.FindRepoRoot File root x) true [File] States x).2)
    refine ⟨⟨(u.FindRepoRoot File root x,
        (u.RunUpdateStatus bin (u.FindRepoRoot File root x) true [File] States x).1) :: steps,
      by simp [hlen], ?_, ?_⟩, ?_, ?_, ?_⟩
    · simp only [RefreshChangedFiles, hcalls, List.zip_cons_cons, List.flatMap_cons]
    · intro q hq
      simp only [List.zip_cons_cons, List.mem_cons] at hq
      rcases hq with hq | hq
      · subst hq
        exact ⟨x, States, rfl, rfl⟩
      · exact hsteps q hq
    · simp only [RefreshChangedFiles, List.countP_append, h1]
      simp [List.countP_cons, Event.IsRescan, Nat.add_comm]
    · simp only [RefreshChangedFiles, List.countP_append, h2]
      simp [List.countP_cons, Event.IsPublish, Nat.add_comm]
    · simp only [RefreshChangedFiles, List.countP_append, h3]
      simp [List.countP_cons, Event.IsRefresh]

/-- C4 (amended): one loop iteration entered with an empty queue and
`CurIteration = 0` calls `UpdateLockCaches` exactly once, first. When that call
returns `true` with the changed paths `ps`, the iteration goes through `ps` in
order and for each path resolves its root with `FindRepoRoot` (starting from the
top-level root), makes one `RunUpdateStatus` rescan under the resolved root
whose file list is that single path, and publishes the rescan's states with
`UpdateCachedStates`: `|ps|` rescans and `|ps|` publishes, none for an empty
list. When the call returns `false`, nothing is resolved, rescanned or
published, whatever list came with it. The counter is `1` afterwards. -/
theorem lock_refresh_calls {σ ω : Type} (u : Collaborators σ ω)
    (w : FGitSourceControlLocksWorker) (x : ω) (changed : Bool) (ps : List String)
    (hq : w.CommandQueue = []) (hc : w.CurIteration = 0) (hstop : w.StopTaskCounter = 0)
    (hr : (u.UpdateLockCaches w.PathToGitBinary w.PathToRepositoryRoot w.LfsUserName x).1
      = (changed, ps)) :
    ∃ rest : List (Event σ),
      (RunIterations u 1 w x).2.2 =
        Event.UpdateLockCaches w.PathToGitBinary w.PathToRepositoryRoot w.LfsUserName :: rest ∧
      rest.countP Event.IsRefresh = 0 ∧
      (changed = true →
        (∃ steps : List (String × List σ), steps.length = ps.length ∧
          rest = (ps.zip steps).flatMap (fun q =>
            [Event.FindRepoRoot q.1 w.PathToRepositoryRoot,
             Event.RunUpdateStatus w.PathToGitBinary q.2.1 true [q.1],
             Event.UpdateCachedStates q.2.2]) ∧
          ∀ q ∈ ps.zip steps, ∃ (x1 : ω) (States1 : List σ),
            q.2.1 = u.FindRepoRoot q.1 w.PathToRepositoryRoot x1 ∧
            q.2.2 = (u.RunUpdateStatus w.PathToGitBinary q.2.1 true [q.1] States1 x1).1) ∧
        rest.countP Event.IsRescan = ps.length ∧
        rest.countP Event.IsPublish = ps.length) ∧
      (changed = false → rest = []) ∧
      (RunIterations u 1 w x).1.CurIteration = 1 := by
  have hadv : Advance 0 = 1 := by decide
  have h1 : (u.UpdateLockCaches w.PathToGitBinary w.PathToRepositoryRoot w.LfsUserName x).1.1
      = changed := by rw [hr]
  have h2 : (u.UpdateLockCaches w.PathToGitBinary w.PathToRepositoryRoot w.LfsUserName x).1.2
      = ps := by rw [hr]
  cases changed with
  | false =>
    refine ⟨[], ?_, rfl, ?_, fun _ => rfl, ?_⟩
    · simp only [RunIterations, hstop, if_true, RunLoopBody, hq, hc, h1, Bool.false_eq_true,
        if_false, List.append_nil]
    · intro h
      cases h
    · simp only [RunIterations, hstop, if_true, RunLoopBody, hq, hc, h1, Bool.false_eq_true,
        if_false, hadv]
  | true =>
    obtain ⟨hsteps, hrescan, hpublish, hrefresh⟩ :=
      RefreshChangedFiles_calls u w.PathToGitBinary w.PathToRepositoryRoot ps []
        (u.UpdateLockCaches w.PathToGitBinary w.PathToRepositoryRoot w.LfsUserName x).2
    refine ⟨_, ?_, hrefresh, fun _ => ⟨hsteps, hrescan, hpublish⟩, ?_, ?_⟩
    · simp only [RunIterations, hstop, if_true, RunLoopBody, hq, hc, h1, h2, List.append_nil]
    · intro h
      cases h
    · simp only [RunIterations, hstop, if_true, RunLoopBody, hq, hc, h1, hadv]

/-- Witness of C4: a refresh that reports two changed paths is followed by a
rescan and a publish for each, in order. -/
theorem lock_refresh_calls_witness :
    (RunIterations (WithLockChanges true ["a", "b"]) 1
        { Construct SampleSettings with CurIteration := 0 } ()).2.2
      = [Event.UpdateLockCaches "git" "R" "me",
         Event.FindRepoRoot "a" "R", Event.RunUpdateStatus "git" "R" true ["a"],
         Event.UpdateCachedStates [],
         Event.FindRepoRoot "b" "R", Event.RunUpdateStatus "git" "R" true ["b"],
         Event.UpdateCachedStates []] ∧
    ∃ rest : List (Event Unit),
      (RunIterations (WithLockChanges true ["a", "b"]) 1
        { Construct SampleSettings with CurIteration := 0 } ()).2.2
        = Event.UpdateLockCaches "git" "R" "me" :: rest ∧
      rest.countP Event.IsRescan = 2 :=
  ⟨by decide,
   (lock_refresh_calls (WithLockChanges true ["a", "b"])
      { Construct SampleSettings with CurIteration := 0 } () true ["a", "b"]
      rfl rfl rfl rfl).elim
    (fun rest h => ⟨rest, h.1, (h.2.2.1 rfl).2.1⟩)⟩

/-- Counterexample to C4 as stated: a refresh that returns `false` together
with one path is followed by no rescan and no publish. -/
theorem lock_refresh_flag_counterexample :
    ¬ ((RunIterations (WithLockChanges false ["a"]) 1
          { Construct SampleSettings with CurIteration := 0 } ()).2.2.countP Event.IsRescan
        = ["a"].length ∧
       (RunIterations (WithLockChanges false ["a"]) 1
          { Construct SampleSettings with CurIteration := 0 } ()).2.2.countP Event.IsPublish
        = ["a"].length) := by
  decide

/-- C5: the guard does not exclude. Two callers follow the protocol on a started
worker; both polls read `false` before either caller has called `LockCache`,
and after both `LockCache` calls the two callers are inside their critical
sections at the same time. -/
theorem guard_admits_two_holders :
    GuardProtocol.Holders
      (GuardProtocol.Interleave [0, 1, 0, 1]
        { Shared := FreshWorker,
          Positions := [GuardProtocol.Position.Polling, GuardProtocol.Position.Polling] })
      = 2 ∧
    (GuardProtocol.Interleave [0, 1, 0, 1]
        { Shared := FreshWorker,
          Positions := [GuardProtocol.Position.Polling, GuardProtocol.Position.Polling] }).Positions
      = [GuardProtocol.Position.Editing, GuardProtocol.Position.Editing] := by
  decide

/-- C6: where the platform has no threads and no worker exists, `JoyInit` leaves
`Runnable` null and `PushCommand` dereferences it, whatever the arguments; where
a worker exists or can be created the call succeeds. -/
theorem PushCommand_null_dereference :
    (∀ (InCommand InPathToGitBinary InRepositoryRoot : String)
        (InParameters InFiles : List String),
      PushCommand SingleThreadedPlatform InCommand InPathToGitBinary InRepositoryRoot
        InParameters InFiles NoWorker = none) ∧
    PushCommand ThreadedPlatform "lfs lock" "git" "R" [] ["a"] NoWorker
      = some { Runnable := some { Construct SampleSettings with
                 CommandQueue := [⟨"lfs lock", "git", "R", [], ["a"]⟩] },
               Constructed := 1 } := by
  constructor
  · intro a b c ps fs
    rfl
  · rfl

/-- C7: on an existing worker `PushCommand` succeeds and turns the queue `q` into
`q ++ [c]`, where the five fields of `c` are the five arguments; nothing else
changes: not the commands already queued, the schedule counter, the guard flag,
the stop counter, the paths, nor the number of workers constructed. -/
theorem PushCommand_appends (p : Platform) (s : System) (w : FGitSourceControlLocksWorker)
    (InCommand InPathToGitBinary InRepositoryRoot : String)
    (InParameters InFiles : List String) (hw : s.Runnable = some w) :
    PushCommand p InCommand InPathToGitBinary InRepositoryRoot InParameters InFiles s
      = some { s with Runnable := some { w with CommandQueue := w.CommandQueue ++
          [{ Command := InCommand, PathToGitBinary := InPathToGitBinary,
             RepositoryRoot := InRepositoryRoot, Parameters := InParameters,
             Files := InFiles }] } } ∧
    ∃ (s1 : System) (w1 : FGitSourceControlLocksWorker) (c : COMMAND),
      PushCommand p InCommand InPathToGitBinary InRepositoryRoot InParameters InFiles s
        = some s1 ∧
      s1.Runnable = some w1 ∧ s1.Constructed = s.Constructed ∧
      w1.CommandQueue = w.CommandQueue ++ [c] ∧
      c.Command = InCommand ∧ c.PathToGitBinary = InPathToGitBinary ∧
      c.RepositoryRoot = InRepositoryRoot ∧ c.Parameters = InParameters ∧
      c.Files = InFiles ∧
      w1.CurIteration = w.CurIteration ∧ w1.mutex = w.mutex ∧
      w1.StopTaskCounter = w.StopTaskCounter := by
  have h : PushCommand p InCommand InPathToGitBinary InRepositoryRoot InParameters InFiles s
      = some { s with Runnable := some { w with CommandQueue := w.CommandQueue ++
          [{ Command := InCommand, PathToGitBinary := InPathToGitBinary,
             RepositoryRoot := InRepositoryRoot, Parameters := InParameters,
             Files := InFiles }] } } := by
    simp only [PushCommand, hw, Option.isNone_some, Bool.false_eq_true, if_false]
  exact ⟨h, _, _, _, h, rfl, rfl, rfl, rfl, rfl, rfl, rfl, rfl, rfl, rfl, rfl⟩

/-- Witness of C7: a fourth command pushed behind three queued ones. -/
theorem PushCommand_appends_witness :
    PushCommand ThreadedPlatform "lfs unlock" "git" "R" [] ["d"]
        { Runnable := some { Construct SampleSettings with CommandQueue := SampleCommands },
          Constructed := 1 }
      = some { Runnable := some { Construct SampleSettings with
                 CommandQueue := SampleCommands ++ [⟨"lfs unlock", "git", "R", [], ["d"]⟩] },
               Constructed := 1 } :=
  (PushCommand_appends ThreadedPlatform
    { Runnable := some { Construct SampleSettings with CommandQueue := SampleCommands },
      Constructed := 1 }
    { Construct SampleSettings with CommandQueue := SampleCommands }
    "lfs unlock" "git" "R" [] ["d"] rfl).1

/-- Counterexample to C8 as stated: `LockCache()` called while no worker exists
starts none, and `IsWrittingCache()` still answers `false` afterwards. -/
theorem LockCache_starts_no_worker_counterexample :
    ¬ ((LockCache NoWorker).Runnable.isSome = true ∧
       IsWrittingCache (LockCache NoWorker) = true) := by
  decide

/-- C8 (amended): on a platform with threads and with no worker existing,
`PushCommand` and `PushUpdates` start the worker first, so a worker exists
afterwards (exactly one was constructed); `IsWrittingCache`, `LockCache` and
`UnlockCache` do not start it: they change nothing, no worker exists afterwards
and `IsWrittingCache()` answers `false`, also right after `LockCache()`. -/
theorem entry_points_and_worker_start (p : Platform) (s : System)
    (InCommand InPathToGitBinary InRepositoryRoot : String)
    (InParameters InFiles : List String) (OpCode : Int)
    (hs : s.Runnable = none) (hp : p.SupportsMultithreading = true) :
    (∃ s1 : System,
      PushCommand p InCommand InPathToGitBinary InRepositoryRoot InParameters InFiles s
        = some s1 ∧
      s1.Runnable.isSome = true ∧ s1.Constructed = s.Constructed + 1) ∧
    (∃ s1 : System,
      PushUpdates p OpCode s = some s1 ∧
      s1.Runnable.isSome = true ∧ s1.Constructed = s.Constructed + 1) ∧
    LockCache s = s ∧ UnlockCache s = s ∧
    (LockCache s).Runnable = none ∧ (UnlockCache s).Runnable = none ∧
    IsWrittingCache s = false ∧ IsWrittingCache (LockCache s) = false := by
  refine ⟨?_, ?_, ?_, ?_, ?_, ?_, ?_, ?_⟩
  · simp [PushCommand, JoyInit, hs, hp]
  · simp [PushUpdates, JoyInit, hs, hp]
  · simp only [LockCache, hs]
  · simp only [UnlockCache, hs]
  · simp only [LockCache, hs]
  · simp only [UnlockCache, hs]
  · simp only [IsWrittingCache, hs]
  · simp only [IsWrittingCache, LockCache, hs]

/-- Witness of C8: the first `PushUpdates` on a platform with threads starts the
worker, the first `LockCache` does not. -/
theorem entry_points_and_worker_start_witness :
    (∃ s1 : System,
      PushUpdates ThreadedPlatform (-1) NoWorker = some s1 ∧
      s1.Runnable.isSome = true ∧ s1.Constructed = NoWorker.Constructed + 1) ∧
    LockCache NoWorker = NoWorker :=
  have h := entry_points_and_worker_start ThreadedPlatform NoWorker "lfs lock" "git" "R" []
    ["a"] (-1) rfl rfl
  ⟨h.2.1, h.2.2.1⟩

/-- C9: on an existing worker `PushUpdates(v)` succeeds for every integer `v`,
so for every 32-bit one, and leaves `CurIteration = v` with the queue, the guard flag, the stop counter and
everything else unchanged. After `PushUpdates(-1)`, an iteration that finds the
queue empty (and no stop request) performs the full sweep: the message, the
pull, the submodule update, the listing and the rescans, and sets the counter
to `0`. -/
theorem PushUpdates_sets_counter (p : Platform) (s : System)
    (w : FGitSourceControlLocksWorker) (v : Int)
    (hw : s.Runnable = some w) :
    PushUpdates p v s = some { s with Runnable := some { w with CurIteration := v } } ∧
    (∃ (s1 : System) (w1 : FGitSourceControlLocksWorker),
      PushUpdates p v s = some s1 ∧ s1.Runnable = some w1 ∧
      s1.Constructed = s.Constructed ∧
      w1.CurIteration = v ∧ w1.CommandQueue = w.CommandQueue ∧ w1.mutex = w.mutex ∧
      w1.StopTaskCounter = w.StopTaskCounter) ∧
    (∀ {σ ω : Type} (u : Collaborators σ ω) (x : ω),
      w.CommandQueue = [] → w.StopTaskCounter = 0 →
      ∃ (s1 : System) (w1 : FGitSourceControlLocksWorker),
        PushUpdates p (-1) s = some s1 ∧ s1.Runnable = some w1 ∧
        (RunIterations u 1 w1 x).1 = { w with CurIteration := 0 } ∧
        (RunIterations u 1 w1 x).2.2 =
          [Event.AddOnScreenDebugMessage "Updating Submodules to the latest version!",
           Event.RunCommand "pull" w.PathToGitBinary w.PathToRepositoryRoot
             ["--rebase", "--autostash", "origin", "HEAD"] [],
           Event.RunCommand "submodule update" w.PathToGitBinary w.PathToRepositoryRoot
             ["--recursive", "--remote"] [],
           Event.GetSubModulesRoots]
          ++ (u.GetSubModulesRoots (SweepCommandsEffect u w x)).map
              (fun sub => Event.RunUpdateStatus w.PathToGitBinary
                (if sub = "" then w.PathToRepositoryRoot
                 else w.PathToRepositoryRoot ++ "/" ++ sub)
                true
                [(if sub = "" then w.PathToRepositoryRoot
                  else w.PathToRepositoryRoot ++ "/" ++ sub) ++ "/"])
          ++ [Event.RunUpdateStatus w.PathToGitBinary w.PathToRepositoryRoot true
                [w.PathToRepositoryRoot ++ "/"]]) := by
  have h : ∀ v : Int,
      PushUpdates p v s = some { s with Runnable := some { w with CurIteration := v } } := by
    intro v
    simp only [PushUpdates, hw, Option.isNone_some, Bool.false_eq_true, if_false]
  refine ⟨h v, ⟨_, _, h v, rfl, rfl, rfl, rfl, rfl, rfl⟩, ?_⟩
  intro σ ω u x hq hstop
  obtain ⟨h1, h2⟩ := sweep_iteration u { w with CurIteration := -1 } x hq rfl hstop
  exact ⟨_, _, h (-1), rfl, h1, h2⟩

/-- Witness of C9: `PushUpdates(-1)` on a fresh worker. -/
theorem PushUpdates_sets_counter_witness :
    PushUpdates ThreadedPlatform (-1) FreshWorker
      = some { FreshWorker with
          Runnable := some { Construct SampleSettings with CurIteration := -1 } } :=
  (PushUpdates_sets_counter ThreadedPlatform FreshWorker (Construct SampleSettings) (-1)
    rfl).1

/-- With no worker and no threads, any number of `JoyInit` calls changes
nothing. -/
theorem JoyInitTimes_unsupported (p : Platform) (hp : p.SupportsMultithreading = false)
    (n : Nat) : ∀ s : System, JoyInitTimes p n s = s := by
  induction n with
  | zero => intro s; rfl
  | succ n ih =>
    intro s
    simp only [JoyInitTimes, JoyInit, hp, Bool.and_false, Bool.false_eq_true, if_false, ih]

/-- With a worker existing, any number of `JoyInit` calls changes nothing. -/
theorem JoyInitTimes_existing (p : Platform) (n : Nat) :
    ∀ (s : System) (w : FGitSourceControlLocksWorker), s.Runnable = some w →
      JoyInitTimes p n s = s := by
  induction n with
  | zero => intro s w _; rfl
  | succ n ih =>
    intro s w hw
    simp only [JoyInitTimes, JoyInit, hw, Option.isNone_some, Bool.false_and,
      Bool.false_eq_true, if_false]
    exact ih s w hw

/-- Counterexample to C10 as stated: on a platform without threads a `JoyInit`
call from the no-worker state creates no worker. -/
theorem JoyInit_unsupported_counterexample :
    ¬ ((JoyInitTimes SingleThreadedPlatform 1 NoWorker).Constructed
        = NoWorker.Constructed + 1) ∧
    (JoyInit SingleThreadedPlatform NoWorker).1 = none := by
  decide

/-- C10 (amended): when a worker exists, `JoyInit` returns that worker and
changes nothing: no worker or thread is created and the queue, counter, guard
flag and stop counter stay as they are. From the no-worker state, `n >= 1` calls
of `JoyInit` create exactly one worker, a fresh one, on a platform with threads,
and none on a platform without. -/
theorem JoyInit_creates_at_most_once (p : Platform) (s : System) (n : Nat)
    (hs : s.Runnable = none) (hn : 1 ≤ n) :
    (∀ (s0 : System) (w : FGitSourceControlLocksWorker), s0.Runnable = some w →
      JoyInit p s0 = (some w, s0)) ∧
    (p.SupportsMultithreading = true →
      JoyInitTimes p n s
        = { Runnable := some (Construct p.Settings), Constructed := s.Constructed + 1 }) ∧
    (p.SupportsMultithreading = false → JoyInitTimes p n s = s) := by
  refine ⟨?_, ?_, ?_⟩
  · intro s0 w hw
    simp only [JoyInit, hw, Option.isNone_some, Bool.false_and, Bool.false_eq_true, if_false]
  · intro hp
    obtain ⟨m, rfl⟩ : ∃ m, n = m + 1 := ⟨n - 1, by omega⟩
    simp only [JoyInitTimes, JoyInit, hs, hp, Option.isNone_none, Bool.and_self, if_true]
    exact JoyInitTimes_existing p m _ _ rfl
  · intro hp
    exact JoyInitTimes_unsupported p hp n s

/-- Witness of C10: three `JoyInit` calls from the no-worker state on a platform
with threads construct one worker. -/
theorem JoyInit_creates_at_most_once_witness :
    JoyInitTimes ThreadedPlatform 3 NoWorker = FreshWorker :=
  (JoyInit_creates_at_most_once ThreadedPlatform NoWorker 3 rfl (by decide)).2.1 rfl

/-! ## Lemmas on the 32-bit arithmetic -/

/-- Inside the `int32` range the reduction changes nothing. -/
theorem wrapInt32_of_range (x : Int) (h0 : -2 ^ 31 ≤ x) (h1 : x < 2 ^ 31) :
    wrapInt32 x = x := by
  unfold wrapInt32
  omega

/-- The truncating remainder by 300, by the sign of the dividend. -/
theorem tmod_MaxIteration (a : Int) :
    Int.tmod a MaxIteration = if 0 ≤ a then a % 300 else -((-a) % 300) := by
  unfold MaxIteration
  by_cases h : 0 ≤ a
  · rw [if_pos h, Int.tmod_eq_emod h (by decide)]
  · rw [if_neg h, Int.tmod_def]
    have h1 : a.tdiv 300 = -((-a) / 300) := by
      have h2 := Int.neg_tdiv (-a) 300
      rw [neg_neg] at h2
      rw [h2, Int.tdiv_eq_ediv (by omega) (by decide)]
    rw [h1]
    omega

/-- The advance of a counter that is not negative and below the largest `int32`. -/
theorem Advance_of_nonneg (c : Int) (h0 : 0 ≤ c) (h1 : c < 2 ^ 31 - 1) :
    Advance c = (c + 1) % 300 := by
  unfold Advance
  rw [wrapInt32_of_range (c + 1) (by omega) (by omega), tmod_MaxIteration, if_pos (by omega)]

/-- The advance of a counter below 299 is the next integer. -/
theorem Advance_of_lt (c : Int) (h0 : 0 ≤ c) (h1 : c < 299) : Advance c = c + 1 := by
  rw [Advance_of_nonneg c h0 (by omega)]
  omega

/-- The advance of a negative `int32` counter. -/
theorem Advance_of_neg (c : Int) (h0 : -2 ^ 31 ≤ c) (h1 : c < -1) :
    Advance c = -((-(c + 1)) % 300) := by
  unfold Advance
  rw [wrapInt32_of_range (c + 1) (by omega) (by omega), tmod_MaxIteration, if_neg (by omega)]

/-- A stop request on a counter that has not wrapped adds one to it. -/
theorem Stop_StopTaskCounter (w : FGitSourceControlLocksWorker)
    (h0 : 0 ≤ w.StopTaskCounter) (h1 : w.StopTaskCounter < 2 ^ 31 - 1) :
    (Stop w).StopTaskCounter = w.StopTaskCounter + 1 := by
  simp only [Stop]
  exact wrapInt32_of_range _ (by omega) (by omega)

/-- The worker after one run of the loop body: a queued command is removed and
nothing else changes; with an empty queue the counter advances and nothing else
changes. -/
theorem RunLoopBody_worker {σ ω : Type} (u : Collaborators σ ω)
    (w : FGitSourceControlLocksWorker) (x : ω) :
    (RunLoopBody u w x).1 =
      { w with
        CommandQueue := w.CommandQueue.tail
        CurIteration := if w.CommandQueue = [] then Advance w.CurIteration
          else w.CurIteration } := by
  obtain ⟨st, cur, q, bin, root, user, m⟩ := w
  cases q with
  | cons c rest => simp [RunLoopBody]
  | nil =>
    by_cases h0 : cur = 0
    · by_cases hr : (u.UpdateLockCaches bin root user x).1.1 = true
      · simp [RunLoopBody, h0, hr]
      · simp [RunLoopBody, h0, hr]
    · by_cases h1 : cur = -1
      · simp [RunLoopBody, h1]
      · simp [RunLoopBody, h0, h1]

/-- The loop body never writes the stop counter, the guard flag or the paths. -/
theorem RunLoopBody_frame {σ ω : Type} (u : Collaborators σ ω)
    (w : FGitSourceControlLocksWorker) (x : ω) :
    (RunLoopBody u w x).1.StopTaskCounter = w.StopTaskCounter ∧
    (RunLoopBody u w x).1.mutex = w.mutex ∧
    (RunLoopBody u w x).1.PathToGitBinary = w.PathToGitBinary ∧
    (RunLoopBody u w x).1.PathToRepositoryRoot = w.PathToRepositoryRoot ∧
    (RunLoopBody u w x).1.LfsUserName = w.LfsUserName := by
  rw [RunLoopBody_worker]
  exact ⟨rfl, rfl, rfl, rfl, rfl⟩

/-- Once the stop counter is not zero, no iteration is run. -/
theorem RunIterations_stopped {σ ω : Type} (u : Collaborators σ ω) (n : Nat)
    (w : FGitSourceControlLocksWorker) (x : ω) (h : w.StopTaskCounter ≠ 0) :
    RunIterations u n w x = (w, x, []) := by
  cases n with
  | zero => rfl
  | succ n => simp only [RunIterations, h, if_false]

/-- Iterations run one after the other. -/
theorem RunIterations_add {σ ω : Type} (u : Collaborators σ ω) (m n : Nat) :
    ∀ (w : FGitSourceControlLocksWorker) (x : ω),
      RunIterations u (m + n) w x =
        ((RunIterations u n (RunIterations u m w x).1 (RunIterations u m w x).2.1).1,
         (RunIterations u n (RunIterations u m w x).1 (RunIterations u m w x).2.1).2.1,
         (RunIterations u m w x).2.2 ++
           (RunIterations u n (RunIterations u m w x).1 (RunIterations u m w x).2.1).2.2) := by
  induction m with
  | zero =>
    intro w x
    simp only [Nat.zero_add, RunIterations, List.nil_append]
  | succ m ih =>
    intro w x
    rw [Nat.add_right_comm]
    by_cases h : w.StopTaskCounter = 0
    · simp only [RunIterations, h, if_true, ih, List.append_assoc]
    · simp only [RunIterations, h, if_false, List.nil_append]
      rw [RunIterations_stopped u n w x h]

/-- C11: `Shutdown` with no worker changes nothing and takes no step; for every
state a second `Shutdown` changes nothing, so two calls leave the same state as
one, and in that state no worker exists. With a worker `w` present the steps
are, in this order: `Stop()` (the counter of a worker not stopped before becomes
1), `Thread->WaitForCompletion()` on the worker so signalled, and `delete
Runnable`. -/
theorem Shutdown_idempotent (s : System) :
    (s.Runnable = none → Shutdown s = (s, [])) ∧
    Shutdown (Shutdown s).1 = ((Shutdown s).1, []) ∧
    (Shutdown (Shutdown s).1).1 = (Shutdown s).1 ∧
    (Shutdown s).1.Runnable = none ∧
    (Shutdown s).1.Constructed = s.Constructed ∧
    (∀ w : FGitSourceControlLocksWorker, s.Runnable = some w →
      (Shutdown s).2 =
        [LifecycleEvent.StopSignalled (Stop w), LifecycleEvent.WaitForCompletion (Stop w),
         LifecycleEvent.Deleted (Stop w)] ∧
      (w.StopTaskCounter = 0 → (Stop w).StopTaskCounter = 1)) := by
  have hnone : ∀ t : System, t.Runnable = none → Shutdown t = (t, []) := by
    intro t ht
    simp only [Shutdown, ht]
  have hafter : (Shutdown s).1.Runnable = none := by
    cases hs : s.Runnable with
    | none => simp only [Shutdown, hs]
    | some w => simp only [Shutdown, hs]
  refine ⟨hnone s, hnone _ hafter, ?_, hafter, ?_, ?_⟩
  · rw [hnone _ hafter]
  · cases hs : s.Runnable with
    | none => simp only [Shutdown, hs]
    | some w => simp only [Shutdown, hs]
  · intro w hw
    refine ⟨?_, ?_⟩
    · simp only [Shutdown, hw, EnsureCompletion, List.cons_append, List.nil_append]
    · intro h0
      rw [Stop_StopTaskCounter w (by omega) (by omega), h0]
      rfl

/-- Witness of C11: shutting down a worker with three queued commands, and
shutting down when there is none. -/
theorem Shutdown_idempotent_witness :
    Shutdown NoWorker = (NoWorker, []) ∧
    (Shutdown { Runnable := some { Construct SampleSettings with CommandQueue := SampleCommands },
                Constructed := 1 }).2
      = [LifecycleEvent.StopSignalled
           { Construct SampleSettings with CommandQueue := SampleCommands, StopTaskCounter := 1 },
         LifecycleEvent.WaitForCompletion
           { Construct SampleSettings with CommandQueue := SampleCommands, StopTaskCounter := 1 },
         LifecycleEvent.Deleted
           { Construct SampleSettings with CommandQueue := SampleCommands,
                                           StopTaskCounter := 1 }] :=
  ⟨(Shutdown_idempotent NoWorker).1 rfl,
   ((Shutdown_idempotent
      { Runnable := some { Construct SampleSettings with CommandQueue := SampleCommands },
        Constructed := 1 }).2.2.2.2.2
      { Construct SampleSettings with CommandQueue := SampleCommands } rfl).1.trans
     (by decide)⟩

/-- After `Shutdown` no worker exists and no worker was constructed. -/
theorem Shutdown_after (s : System) :
    (Shutdown s).1.Runnable = none ∧ (Shutdown s).1.Constructed = s.Constructed := by
  cases hs : s.Runnable with
  | none => simp only [Shutdown, hs, and_self]
  | some w => simp only [Shutdown, hs, and_self]

/-- The calls of the refresh loop are periodic calls, none of them the on-screen
message of the sweep. -/
theorem RefreshChangedFiles_periodic {σ ω : Type} (u : Collaborators σ ω) (bin root : String)
    (ps : List String) :
    ∀ (States : List σ) (x : ω), ∀ e ∈ (RefreshChangedFiles u bin root ps States x).2.2,
      e.IsPeriodicCall = true ∧ e.IsSweepMessage = false := by
  induction ps with
  | nil =>
    intro States x e he
    simp [RefreshChangedFiles] at he
  | cons File rest ih =>
    intro States x e he
    simp only [RefreshChangedFiles, List.cons_append, List.nil_append, List.mem_cons] at he
    rcases he with he | he | he | he
    · subst he; exact ⟨rfl, rfl⟩
    · subst he; exact ⟨rfl, rfl⟩
    · subst he; exact ⟨rfl, rfl⟩
    · exact ih _ _ e he

/-- One run of the loop body from a counter in `0 .. 299`: the counter stays in
that range, the on-screen message of the sweep is not issued, and with an empty
queue no command is run. -/
theorem RunLoopBody_bounded {σ ω : Type} (u : Collaborators σ ω)
    (w : FGitSourceControlLocksWorker) (x : ω)
    (h0 : 0 ≤ w.CurIteration) (h1 : w.CurIteration < 300) :
    0 ≤ (RunLoopBody u w x).1.CurIteration ∧ (RunLoopBody u w x).1.CurIteration < 300 ∧
    (∀ e ∈ (RunLoopBody u w x).2.2, e.IsSweepMessage = false) ∧
    (w.CommandQueue = [] → ∀ e ∈ (RunLoopBody u w x).2.2, e.IsPeriodicCall = true) := by
  have hadv := Advance_of_nonneg w.CurIteration h0 (by omega)
  refine ⟨?_, ?_, ?_⟩
  · rw [RunLoopBody_worker]
    by_cases hq : w.CommandQueue = []
    · simp only [hq, if_true, hadv]; omega
    · simp only [hq, if_false]; omega
  · rw [RunLoopBody_worker]
    by_cases hq : w.CommandQueue = []
    · simp only [hq, if_true, hadv]; omega
    · simp only [hq, if_false]; omega
  · have hne : w.CurIteration ≠ -1 := by omega
    cases hq : w.CommandQueue with
    | cons c rest =>
      refine ⟨?_, fun h => by cases h⟩
      intro e he
      simp only [RunLoopBody, hq, List.mem_singleton] at he
      subst he
      rfl
    | nil =>
      have hboth : ∀ e ∈ (RunLoopBody u w x).2.2,
          e.IsPeriodicCall = true ∧ e.IsSweepMessage = false := by
        intro e he
        by_cases hc : w.CurIteration = 0
        · by_cases hr : (u.UpdateLockCaches w.PathToGitBinary w.PathToRepositoryRoot
              w.LfsUserName x).1.1 = true
          · simp only [RunLoopBody, hq, hc, hr, if_true, List.mem_cons] at he
            rcases he with he | he
            · subst he; exact ⟨rfl, rfl⟩
            · exact RefreshChangedFiles_periodic u _ _ _ _ _ e he
          · rw [Bool.not_eq_true] at hr
            simp only [RunLoopBody, hq, hc, hr, if_true, Bool.false_eq_true, if_false,
              List.mem_singleton] at he
            subst he; exact ⟨rfl, rfl⟩
        · simp only [RunLoopBody, hq, hc, hne, if_false, List.mem_singleton] at he
          subst he; exact ⟨rfl, rfl⟩
      exact ⟨fun e he => (hboth e he).2, fun _ e he => (hboth e he).1⟩

/-- Iterations of the loop never write the stop counter. -/
theorem RunIterations_StopTaskCounter {σ ω : Type} (u : Collaborators σ ω) (n : Nat) :
    ∀ (w : FGitSourceControlLocksWorker) (x : ω),
      (RunIterations u n w x).1.StopTaskCounter = w.StopTaskCounter := by
  induction n with
  | zero => intro w x; rfl
  | succ n ih =>
    intro w x
    by_cases hstop : w.StopTaskCounter = 0
    · simp only [RunIterations, hstop, if_true, ih]
      rw [(RunLoopBody_frame u w x).1, hstop]
    · rw [RunIterations_stopped u _ w x hstop]

/-- No action of a run writes the stop counter of an existing worker, and no
action fails on an existing worker. -/
theorem RunActions_StopTaskCounter {σ ω : Type} (u : Collaborators σ ω) (p : Platform)
    (acts : List SystemAction) :
    ∀ (s : System) (x : ω) (w : FGitSourceControlLocksWorker), s.Runnable = some w →
      ∃ (s1 : System) (x1 : ω) (t : List (Event σ)) (w1 : FGitSourceControlLocksWorker),
        RunActions u p acts s x = some (s1, x1, t) ∧ s1.Runnable = some w1 ∧
        w1.StopTaskCounter = w.StopTaskCounter := by
  induction acts with
  | nil =>
    intro s x w hw
    exact ⟨s, x, [], w, rfl, hw, rfl⟩
  | cons a rest ih =>
    intro s x w hw
    cases a with
    | Iterate =>
      obtain ⟨s1, x1, t, w1, h1, h2, h3⟩ :=
        ih (WorkerTurn u s x).1 (WorkerTurn u s x).2.1 (RunIterations u 1 w x).1
          (by simp only [WorkerTurn, hw])
      refine ⟨s1, x1, (WorkerTurn u s x).2.2 ++ t, w1, ?_, h2, ?_⟩
      · simp only [RunActions, h1]
      · rw [h3, RunIterations_StopTaskCounter]
    | PushCommand c =>
      obtain ⟨s1, x1, t, w1, h1, h2, h3⟩ :=
        ih { s with Runnable := some { w with CommandQueue := w.CommandQueue ++ [c] } } x
          { w with CommandQueue := w.CommandQueue ++ [c] } rfl
      refine ⟨s1, x1, t, w1, ?_, h2, h3⟩
      simp only [RunActions, PushCommand, hw, Option.isNone_some, Bool.false_eq_true, if_false]
      exact h1
    | PushUpdates v =>
      obtain ⟨s1, x1, t, w1, h1, h2, h3⟩ :=
        ih { s with Runnable := some { w with CurIteration := v } } x
          { w with CurIteration := v } rfl
      refine ⟨s1, x1, t, w1, ?_, h2, h3⟩
      simp only [RunActions, PushUpdates, hw, Option.isNone_some, Bool.false_eq_true, if_false]
      exact h1
    | LockCache =>
      obtain ⟨s1, x1, t, w1, h1, h2, h3⟩ :=
        ih (LockCache s) x { w with mutex := true } (by simp only [LockCache, hw])
      exact ⟨s1, x1, t, w1, by simp only [RunActions, h1], h2, h3⟩
    | UnlockCache =>
      obtain ⟨s1, x1, t, w1, h1, h2, h3⟩ :=
        ih (UnlockCache s) x { w with mutex := false } (by simp only [UnlockCache, hw])
      exact ⟨s1, x1, t, w1, by simp only [RunActions, h1], h2, h3⟩

/-- C13: the stop counter is read at the top of the loop only and a stop is
final. With a non-zero counter at the loop condition no iteration is run,
whatever the queue holds, and `Run` returns 0 having made its initial sleep
only; with a zero counter the loop body runs and the loop is not left, whatever
the bound. The body itself does not read the counter: a stop that arrives during
an iteration leaves that iteration as it is. `Stop()` on a counter that has not
wrapped makes it non-zero, and no loop iteration, `PushCommand`, `PushUpdates`,
`LockCache` or `UnlockCache` on that worker changes the counter. -/
theorem stop_is_final {σ ω : Type} (u : Collaborators σ ω) (p : Platform)
    (w : FGitSourceControlLocksWorker) (x : ω) :
    (w.StopTaskCounter ≠ 0 →
      (∀ n : Nat, RunIterations u n w x = (w, x, [])) ∧
      (∀ fuel : Nat, Run u fuel w x = some (0, w, u.Sleep 30 x, [Event.Sleep 30]))) ∧
    (w.StopTaskCounter = 0 →
      (∀ n : Nat, RunIterations u (n + 1) w x =
        ((RunIterations u n (RunLoopBody u w x).1 (RunLoopBody u w x).2.1).1,
         (RunIterations u n (RunLoopBody u w x).1 (RunLoopBody u w x).2.1).2.1,
         (RunLoopBody u w x).2.2 ++
           (RunIterations u n (RunLoopBody u w x).1 (RunLoopBody u w x).2.1).2.2)) ∧
      (RunLoopBody u w x).2.2 ≠ [] ∧
      (∀ fuel : Nat, Run u fuel w x = none)) ∧
    RunLoopBody u (Stop w) x =
      (Stop (RunLoopBody u w x).1, (RunLoopBody u w x).2.1, (RunLoopBody u w x).2.2) ∧
    (0 ≤ w.StopTaskCounter → w.StopTaskCounter < 2 ^ 31 - 1 →
      (Stop w).StopTaskCounter ≠ 0) ∧
    (∀ (s : System) (acts : List SystemAction), s.Runnable = some w →
      ∃ (s1 : System) (x1 : ω) (t : List (Event σ)) (w1 : FGitSourceControlLocksWorker),
        RunActions u p acts s x = some (s1, x1, t) ∧ s1.Runnable = some w1 ∧
        w1.StopTaskCounter = w.StopTaskCounter) := by
  refine ⟨?_, ?_, ?_, ?_, ?_⟩
  · intro h
    refine ⟨fun n => RunIterations_stopped u n w x h, fun fuel => ?_⟩
    simp only [Run, RunIterations_stopped u fuel w _ h, h, if_false]
  · intro h
    refine ⟨fun n => ?_, ?_, fun fuel => ?_⟩
    · simp only [RunIterations, h, if_true]
    · obtain ⟨st, cur, q, bin, root, user, m⟩ := w
      cases q with
      | cons c rest => simp [RunLoopBody]
      | nil =>
        by_cases h0 : cur = 0
        · by_cases hr : (u.UpdateLockCaches bin root user x).1.1 = true
          · simp [RunLoopBody, h0, hr]
          · simp [RunLoopBody, h0, hr]
        · by_cases h1 : cur = -1
          · simp [RunLoopBody, h1]
          · simp [RunLoopBody, h0, h1]
    · simp only [Run, RunIterations_StopTaskCounter, h, if_true]
  · obtain ⟨st, cur, q, bin, root, user, m⟩ := w
    cases q with
    | cons c rest => simp [RunLoopBody, Stop]
    | nil =>
      by_cases h0 : cur = 0
      · by_cases hr : (u.UpdateLockCaches bin root user x).1.1 = true
        · simp [RunLoopBody, Stop, h0, hr]
        · simp [RunLoopBody, Stop, h0, hr]
      · by_cases h1 : cur = -1
        · simp [RunLoopBody, Stop, h1]
        · simp [RunLoopBody, Stop, h0, h1]
  · intro h0 h1
    rw [Stop_StopTaskCounter w h0 h1]
    omega
  · intro s acts hw
    exact RunActions_StopTaskCounter u p acts s x w hw

/-- Witness of C13: a stopped worker with three queued commands runs none of
them, and later pushes and iterations leave its stop counter at 1. -/
theorem stop_is_final_witness :
    Run QuietCollaborators 5
        (Stop { Construct SampleSettings with CommandQueue := SampleCommands }) ()
      = some (0, Stop { Construct SampleSettings with CommandQueue := SampleCommands }, (),
          [Event.Sleep 30]) ∧
    (Stop (Construct SampleSettings)).StopTaskCounter ≠ 0 :=
  ⟨((stop_is_final QuietCollaborators ThreadedPlatform
      (Stop { Construct SampleSettings with CommandQueue := SampleCommands }) ()).1
      (by decide)).2 5,
   (stop_is_final QuietCollaborators ThreadedPlatform (Construct SampleSettings) ()).2.2.2.1
      (by decide) (by decide)⟩

/-- Counterexample to C14 as stated: after `Stop()` the loop of the worker has
been left and `Run` has returned 0, the worker still exists, and
`IsThreadFinished()` answers `false`. -/
theorem IsThreadFinished_stopped_counterexample :
    Run QuietCollaborators 0 (Stop (Construct SampleSettings)) ()
      = some (0, Stop (Construct SampleSettings), (), [Event.Sleep 30]) ∧
    StoppedWorker.Runnable = some (Stop (Construct SampleSettings)) ∧
    ¬ (IsThreadFinished StoppedWorker = true) := by
  decide

/-- C14 (amended): `IsThreadFinished()` answers `true` exactly when no worker
exists; whenever a worker exists it answers `false`, whatever the stop counter
of that worker is, so both while the loop is running and after the loop has
been left following a stop request. -/
theorem IsThreadFinished_iff_no_worker (s : System) :
    IsThreadFinished s = s.Runnable.isNone ∧
    (IsThreadFinished s = true ↔ s.Runnable = none) ∧
    (∀ (w : FGitSourceControlLocksWorker) (StopTaskCounter : Int),
      IsThreadFinished
        { s with Runnable := some { w with StopTaskCounter := StopTaskCounter } } = false) ∧
    IsThreadFinished (Shutdown s).1 = true := by
  refine ⟨?_, ?_, ?_, ?_⟩
  · cases hs : s.Runnable <;> simp [IsThreadFinished, IsFinished, hs]
  · cases hs : s.Runnable <;> simp [IsThreadFinished, IsFinished, hs]
  · intro w c
    rfl
  · simp only [IsThreadFinished, (Shutdown_after s).1]

/-- One turn of the loop (condition, then body) from a counter in `0 .. 299`
keeps the counter in that range and does not issue the message of the sweep. -/
theorem RunIterations_one_bounded {σ ω : Type} (u : Collaborators σ ω)
    (w : FGitSourceControlLocksWorker) (x : ω)
    (h0 : 0 ≤ w.CurIteration) (h1 : w.CurIteration < 300) :
    0 ≤ (RunIterations u 1 w x).1.CurIteration ∧ (RunIterations u 1 w x).1.CurIteration < 300 ∧
    ∀ e ∈ (RunIterations u 1 w x).2.2, e.IsSweepMessage = false := by
  by_cases hstop : w.StopTaskCounter = 0
  · obtain ⟨b0, b1, b2, _⟩ := RunLoopBody_bounded u w x h0 h1
    simp only [RunIterations, hstop, if_true, List.append_nil]
    exact ⟨b0, b1, b2⟩
  · rw [RunIterations_stopped u 1 w x hstop]
    exact ⟨h0, h1, by simp⟩

/-- A run without `PushUpdates` from an existing worker whose counter is in
`0 .. 299` never fails, keeps the counter in that range and never issues the
message of the sweep. -/
theorem RunActions_bounded {σ ω : Type} (u : Collaborators σ ω) (p : Platform)
    (acts : List SystemAction) :
    ∀ (s : System) (x : ω) (w : FGitSourceControlLocksWorker), s.Runnable = some w →
      (∀ a ∈ acts, a.IsPushUpdates = false) →
      0 ≤ w.CurIteration → w.CurIteration < 300 →
      ∃ (s1 : System) (x1 : ω) (t : List (Event σ)) (w1 : FGitSourceControlLocksWorker),
        RunActions u p acts s x = some (s1, x1, t) ∧ s1.Runnable = some w1 ∧
        0 ≤ w1.CurIteration ∧ w1.CurIteration < 300 ∧
        ∀ e ∈ t, e.IsSweepMessage = false := by
  induction acts with
  | nil =>
    intro s x w hw _ h0 h1
    exact ⟨s, x, [], w, rfl, hw, h0, h1, by simp⟩
  | cons a rest ih =>
    intro s x w hw hacts h0 h1
    have hrest : ∀ b ∈ rest, b.IsPushUpdates = false :=
      fun b hb => hacts b (List.mem_cons_of_mem a hb)
    have ha : a.IsPushUpdates = false := hacts a (List.mem_cons_self a rest)
    cases a with
    | Iterate =>
      obtain ⟨b0, b1, b2⟩ := RunIterations_one_bounded u w x h0 h1
      obtain ⟨s1, x1, t, w1, e1, e2, e3, e4, e5⟩ :=
        ih (WorkerTurn u s x).1 (WorkerTurn u s x).2.1 (RunIterations u 1 w x).1
          (by simp only [WorkerTurn, hw]) hrest b0 b1
      refine ⟨s1, x1, (WorkerTurn u s x).2.2 ++ t, w1, ?_, e2, e3, e4, ?_⟩
      · simp only [RunActions, e1]
      · intro e he
        rcases List.mem_append.1 he with he | he
        · simp only [WorkerTurn, hw] at he
          exact b2 e he
        · exact e5 e he
    | PushCommand c =>
      obtain ⟨s1, x1, t, w1, e1, e2, e3, e4, e5⟩ :=
        ih { s with Runnable := some { w with CommandQueue := w.CommandQueue ++ [c] } } x
          { w with CommandQueue := w.CommandQueue ++ [c] } rfl hrest h0 h1
      refine ⟨s1, x1, t, w1, ?_, e2, e3, e4, e5⟩
      simp only [RunActions, PushCommand, hw, Option.isNone_some, Bool.false_eq_true, if_false]
      exact e1
    | PushUpdates v => cases ha
    | LockCache =>
      obtain ⟨s1, x1, t, w1, e1, e2, e3, e4, e5⟩ :=
        ih (LockCache s) x { w with mutex := true } (by simp only [LockCache, hw]) hrest h0 h1
      exact ⟨s1, x1, t, w1, by simp only [RunActions, e1], e2, e3, e4, e5⟩
    | UnlockCache =>
      obtain ⟨s1, x1, t, w1, e1, e2, e3, e4, e5⟩ :=
        ih (UnlockCache s) x { w with mutex := false } (by simp only [UnlockCache, hw])
          hrest h0 h1
      exact ⟨s1, x1, t, w1, by simp only [RunActions, e1], e2, e3, e4, e5⟩

/-- Which `int32` counters the advance sends to `-1`. -/
theorem Advance_eq_neg_one_iff (c : Int) (h0 : -2 ^ 31 ≤ c) (h1 : c < 2 ^ 31) :
    Advance c = -1 ↔ c ≤ -2 ∧ (c + 2) % 300 = 0 := by
  by_cases hmax : c = 2 ^ 31 - 1
  · subst hmax
    constructor
    · intro h
      have h2 : Advance (2 ^ 31 - 1) = -248 := by decide
      rw [h2] at h
      omega
    · intro h
      omega
  · by_cases hn : 0 ≤ c
    · rw [Advance_of_nonneg c hn (by omega)]
      omega
    · by_cases hm : c = -1
      · subst hm
        have h2 : Advance (-1) = 0 := by decide
        rw [h2]
        omega
      · rw [Advance_of_neg c h0 (by omega)]
        omega

/-- Counterexample to C15 as stated: the advance of `-2` is `-1`, so after
`PushUpdates(-2)` one idle tick brings the counter to `-1` and the next
iteration performs the sweep. -/
theorem Advance_reaches_sweep_value_counterexample :
    ¬ (Advance (-2) ≠ -1) ∧
    (RunIterations QuietCollaborators 1
      { Construct SampleSettings with CurIteration := -2 } ()).1.CurIteration = -1 ∧
    (RunIterations QuietCollaborators 2
      { Construct SampleSettings with CurIteration := -2 } ()).2.2
      = [Event.Sleep 30,
         Event.AddOnScreenDebugMessage "Updating Submodules to the latest version!",
         Event.RunCommand "pull" "git" "R" ["--rebase", "--autostash", "origin", "HEAD"] [],
         Event.RunCommand "submodule update" "git" "R" ["--recursive", "--remote"] [],
         Event.GetSubModulesRoots,
         Event.RunUpdateStatus "git" "R" true ["R/"]] := by
  decide

/-- C15 (amended): for an `int32` counter `c`, the advance `(c + 1) % MaxIteration`
is `-1` exactly when `c <= -2` and `c + 2` is a multiple of 300 (`-2`, `-302`,
...); so it differs from `-1` for every `c >= -1`, and from a `c` in `0 .. 299`
it lands in `0 .. 299`. Hence a loop iteration leaves `CurIteration = -1` only
if it was entered with `-1` and a queued command, or with such a `c <= -2`; and
in a run from a fresh start without `PushUpdates` the counter is never `-1`. -/
theorem Advance_reaches_sweep_value {σ ω : Type} (u : Collaborators σ ω) (p : Platform)
    (c : Int) (h0 : -2 ^ 31 ≤ c) (h1 : c < 2 ^ 31) :
    (Advance c = -1 ↔ c ≤ -2 ∧ (c + 2) % 300 = 0) ∧
    (-1 ≤ c → Advance c ≠ -1) ∧
    (0 ≤ c → c < 300 → 0 ≤ Advance c ∧ Advance c < 300) ∧
    (∀ (w : FGitSourceControlLocksWorker) (x : ω), w.CurIteration = c →
      (RunLoopBody u w x).1.CurIteration = -1 →
      (c = -1 ∧ w.CommandQueue ≠ []) ∨ (c ≤ -2 ∧ (c + 2) % 300 = 0)) ∧
    (∀ (acts : List SystemAction) (m : ModuleSettings) (k : Nat) (x : ω),
      (∀ a ∈ acts, a.IsPushUpdates = false) →
      ∃ (s1 : System) (x1 : ω) (t : List (Event σ)) (w1 : FGitSourceControlLocksWorker),
        RunActions u p acts { Runnable := some (Construct m), Constructed := k } x
          = some (s1, x1, t) ∧
        s1.Runnable = some w1 ∧ w1.CurIteration ≠ -1) := by
  have hiff := Advance_eq_neg_one_iff c h0 h1
  refine ⟨hiff, ?_, ?_, ?_, ?_⟩
  · intro hc h
    have := hiff.1 h
    omega
  · intro hc0 hc1
    rw [Advance_of_nonneg c hc0 (by omega)]
    omega
  · intro w x hw h
    rw [RunLoopBody_worker] at h
    by_cases hq : w.CommandQueue = []
    · simp only [hq, if_true, hw] at h
      exact Or.inr (hiff.1 h)
    · simp only [hq, if_false, hw] at h
      exact Or.inl ⟨h, hq⟩
  · intro acts m k x hacts
    obtain ⟨s1, x1, t, w1, e1, e2, e3, _, _⟩ :=
      RunActions_bounded u p acts { Runnable := some (Construct m), Constructed := k } x
        (Construct m) rfl hacts (by simp [Construct]) (by simp [Construct])
    exact ⟨s1, x1, t, w1, e1, e2, by omega⟩

/-- Witness of C15: the advance of `299` is `0`, not `-1`. -/
theorem Advance_reaches_sweep_value_witness : Advance 299 ≠ -1 :=
  (Advance_reaches_sweep_value QuietCollaborators ThreadedPlatform 299
    (by decide) (by decide)).2.1 (by decide)

/-- C16: from a freshly started worker, after any sequence of loop iterations
and `PushCommand` calls (guard calls may be mixed in) without a `PushUpdates`
call, no call has failed, the worker exists and `0 <= CurIteration <
MaxIteration` holds; the counter is not `-1` and the on-screen message that opens
the full sweep was never issued, so the sweep branch was never taken. -/
theorem schedule_counter_bounded {σ ω : Type} (u : Collaborators σ ω) (p : Platform)
    (m : ModuleSettings) (k : Nat) (x : ω) (acts : List SystemAction)
    (hacts : ∀ a ∈ acts, a.IsPushUpdates = false) :
    ∃ (s1 : System) (x1 : ω) (t : List (Event σ)) (w1 : FGitSourceControlLocksWorker),
      RunActions u p acts { Runnable := some (Construct m), Constructed := k } x
        = some (s1, x1, t) ∧
      s1.Runnable = some w1 ∧
      0 ≤ w1.CurIteration ∧ w1.CurIteration < MaxIteration ∧ w1.CurIteration ≠ -1 ∧
      ∀ e ∈ t, e.IsSweepMessage = false := by
  obtain ⟨s1, x1, t, w1, e1, e2, e3, e4, e5⟩ :=
    RunActions_bounded u p acts { Runnable := some (Construct m), Constructed := k } x
      (Construct m) rfl hacts (by simp [Construct]) (by simp [Construct])
  exact ⟨s1, x1, t, w1, e1, e2, e3, e4, by omega, e5⟩

/-- Witness of C16: an iteration, a push and two more iterations from a fresh
worker leave the counter at 3. -/
theorem schedule_counter_bounded_witness :
    ∃ (s1 : System) (x1 : Unit) (t : List (Event Unit)) (w1 : FGitSourceControlLocksWorker),
      RunActions QuietCollaborators ThreadedPlatform
        [SystemAction.Iterate, SystemAction.PushCommand ⟨"lfs lock", "git", "R", [], ["a"]⟩,
         SystemAction.Iterate, SystemAction.Iterate]
        { Runnable := some (Construct SampleSettings), Constructed := 1 } ()
        = some (s1, x1, t) ∧
      s1.Runnable = some w1 ∧
      0 ≤ w1.CurIteration ∧ w1.CurIteration < MaxIteration ∧ w1.CurIteration ≠ -1 ∧
      ∀ e ∈ t, e.IsSweepMessage = false :=
  schedule_counter_bounded QuietCollaborators ThreadedPlatform SampleSettings 1 ()
    [SystemAction.Iterate, SystemAction.PushCommand ⟨"lfs lock", "git", "R", [], ["a"]⟩,
     SystemAction.Iterate, SystemAction.Iterate]
    (by decide)

/-- C17: whatever `RunCommand` reports for the head `h` of the queue `h :: t`
(flag, result lines, error lines), the drain iteration leaves the queue `t` and
changes neither the schedule counter nor the guard flag nor anything else of
the worker; its only call is that one `RunCommand`. The command is not run
again: the following `|t|` iterations run exactly the commands of `t`, in
order, and empty the queue. -/
theorem failed_command_not_requeued {σ ω : Type} (u : Collaborators σ ω)
    (w : FGitSourceControlLocksWorker) (x x1 : ω) (h : COMMAND) (t : List COMMAND)
    (outcome : RunCommandOutcome)
    (hq : w.CommandQueue = h :: t) (hstop : w.StopTaskCounter = 0)
    (hout : u.RunCommand h.Command h.PathToGitBinary h.RepositoryRoot h.Parameters h.Files x
      = (outcome, x1)) :
    RunIterations u 1 w x = ({ w with CommandQueue := t }, x1, [CommandEvent σ h]) ∧
    (RunIterations u 1 w x).1.CommandQueue = t ∧
    (RunIterations u 1 w x).1.CurIteration = w.CurIteration ∧
    (RunIterations u 1 w x).1.mutex = w.mutex ∧
    RunIterations u t.length (RunIterations u 1 w x).1 (RunIterations u 1 w x).2.1
      = ({ w with CommandQueue := [] }, CommandEffects u t x1, t.map (CommandEvent σ)) ∧
    (RunIterations u (1 + t.length) w x).2.2 = (h :: t).map (CommandEvent σ) := by
  have hx : CommandEffect u h x = x1 := by
    simp only [CommandEffect, hout]
  have h1 : RunIterations u 1 w x
      = ({ w with CommandQueue := t }, x1, [CommandEvent σ h]) := by
    simp only [RunIterations, hstop, if_true, RunLoopBody, hq, List.append_nil, hx]
  have h2 := RunIterations_drain u t [] { w with CommandQueue := t } x1 hstop (by simp)
  refine ⟨h1, ?_, ?_, ?_, ?_, ?_⟩
  · rw [h1]
  · rw [h1]
  · rw [h1]
  · rw [h1]
    exact h2
  · rw [RunIterations_add, h1]
    simp only [h2, List.map_cons, List.singleton_append]

/-- Witness of C17: the first of three commands fails with an error line; the
queue afterwards holds the other two. -/
theorem failed_command_not_requeued_witness :
    RunIterations (WithOutcome ⟨false, [], ["fatal: lock failed"]⟩) 1
        { Construct SampleSettings with CommandQueue := SampleCommands } ()
      = ({ Construct SampleSettings with CommandQueue := SampleCommands.tail }, (),
         [Event.RunCommand "lfs lock" "git" "R" [] ["a"]]) :=
  (failed_command_not_requeued (WithOutcome ⟨false, [], ["fatal: lock failed"]⟩)
    { Construct SampleSettings with CommandQueue := SampleCommands } () ()
    ⟨"lfs lock", "git", "R", [], ["a"]⟩ SampleCommands.tail
    ⟨false, [], ["fatal: lock failed"]⟩ rfl rfl rfl).1

/-- C18: a freshly started worker has the guard flag clear. On an existing
worker `IsWrittingCache()` answers `true` after `LockCache()` and `false` after
`UnlockCache()`, also when one follows the other; `LockCache` and `UnlockCache`
are idempotent; and each of them changes the flag only, leaving the command
queue, the schedule counter, the stop counter and all else as they were
(`IsWrittingCache` only reads). -/
theorem guard_flag_round_trip (s : System) (w : FGitSourceControlLocksWorker)
    (hw : s.Runnable = some w) :
    (∀ (m : ModuleSettings) (k : Nat),
      IsWrittingCache { Runnable := some (Construct m), Constructed := k } = false) ∧
    IsWrittingCache s = w.mutex ∧
    IsWrittingCache (LockCache s) = true ∧
    IsWrittingCache (UnlockCache s) = false ∧
    IsWrittingCache (UnlockCache (LockCache s)) = false ∧
    IsWrittingCache (LockCache (UnlockCache s)) = true ∧
    LockCache (LockCache s) = LockCache s ∧
    UnlockCache (UnlockCache s) = UnlockCache s ∧
    LockCache s = { s with Runnable := some { w with mutex := true } } ∧
    UnlockCache s = { s with Runnable := some { w with mutex := false } } ∧
    (∃ w1 : FGitSourceControlLocksWorker, (LockCache s).Runnable = some w1 ∧
      w1.CommandQueue = w.CommandQueue ∧ w1.CurIteration = w.CurIteration ∧
      w1.StopTaskCounter = w.StopTaskCounter) ∧
    (∃ w1 : FGitSourceControlLocksWorker, (UnlockCache s).Runnable = some w1 ∧
      w1.CommandQueue = w.CommandQueue ∧ w1.CurIteration = w.CurIteration ∧
      w1.StopTaskCounter = w.StopTaskCounter) := by
  have hl : LockCache s = { s with Runnable := some { w with mutex := true } } := by
    simp only [LockCache, hw]
  have hu : UnlockCache s = { s with Runnable := some { w with mutex := false } } := by
    simp only [UnlockCache, hw]
  refine ⟨fun m k => rfl, ?_, ?_, ?_, ?_, ?_, ?_, ?_, hl, hu, ?_, ?_⟩
  · simp only [IsWrittingCache, hw]
  · rw [hl]; rfl
  · rw [hu]; rfl
  · rw [hl]; rfl
  · rw [hu]; rfl
  · rw [hl]; rfl
  · rw [hu]; rfl
  · rw [hl]; exact ⟨_, rfl, rfl, rfl, rfl⟩
  · rw [hu]; exact ⟨_, rfl, rfl, rfl, rfl⟩

/-- Witness of C18: the round trip on the first worker. -/
theorem guard_flag_round_trip_witness :
    IsWrittingCache FreshWorker = false ∧
    IsWrittingCache (LockCache FreshWorker) = true ∧
    IsWrittingCache (UnlockCache (LockCache FreshWorker)) = false :=
  have h := guard_flag_round_trip FreshWorker (Construct SampleSettings) rfl
  ⟨h.2.1, h.2.2.1, h.2.2.2.2.1⟩

/-- Idle ticks: from an empty queue, no stop request and a counter `c` in
`1 .. 299`, `k` iterations with `c + k <= 300` are `k` sleeps and nothing else,
and count the counter up to `c + k`, which becomes `0` when it reaches 300. -/
theorem RunIterations_idle {σ ω : Type} (u : Collaborators σ ω) (k : Nat) :
    ∀ (w : FGitSourceControlLocksWorker) (x : ω), w.CommandQueue = [] →
      w.StopTaskCounter = 0 → 1 ≤ w.CurIteration → w.CurIteration < 300 →
      w.CurIteration + k ≤ 300 →
      RunIterations u k w x =
        ({ w with CurIteration := (w.CurIteration + k) % 300 }, IdleEffect u k x,
         List.replicate k (Event.Sleep 30)) := by
  induction k with
  | zero =>
    intro w x _ _ h1 h2 _
    obtain ⟨st, cur, q, bin, root, user, m⟩ := w
    simp only [Nat.cast_zero, add_zero] at h1 h2 ⊢
    have hc : cur % 300 = cur := by omega
    simp only [RunIterations, IdleEffect, List.replicate, hc]
  | succ k ih =>
    intro w x hq hstop h1 h2 h3
    obtain ⟨st, cur, q, bin, root, user, m⟩ := w
    simp only [Nat.cast_add, Nat.cast_one] at hq hstop h1 h2 h3 ⊢
    subst hq hstop
    have hc0 : cur ≠ 0 := by omega
    have hc1 : cur ≠ -1 := by omega
    by_cases hlast : cur = 299
    · subst hlast
      have hk : k = 0 := by omega
      subst hk
      have hadv : Advance 299 = 0 := by decide
      simp [RunIterations, RunLoopBody, hadv, IdleEffect, List.replicate]
    · have hadv : Advance cur = cur + 1 := Advance_of_lt cur (by omega) (by omega)
      have hstep := ih ⟨0, cur + 1, [], bin, root, user, m⟩ (u.Sleep 30 x) rfl rfl
        (by simp only; omega) (by simp only; omega) (by simp only; omega)
      simp only at hstep
      have he : (cur + 1 + (k : Int)) % 300 = (cur + ((k : Int) + 1)) % 300 := by
        congr 1; omega
      simp only [RunIterations, if_true, RunLoopBody, hc0, hc1, if_false, hadv, hstep, he,
        IdleEffect, List.replicate, List.singleton_append]

/-- One iteration entered with an empty queue and `CurIteration = 0`: the first
call is the lock-cache refresh and the counter is `1` afterwards. -/
theorem refresh_iteration {σ ω : Type} (u : Collaborators σ ω)
    (w : FGitSourceControlLocksWorker) (x : ω)
    (hq : w.CommandQueue = []) (hc : w.CurIteration = 0) (hstop : w.StopTaskCounter = 0) :
    (RunIterations u 1 w x).1 = { w with CurIteration := 1 } ∧
    ∃ rest : List (Event σ), (RunIterations u 1 w x).2.2 =
      Event.UpdateLockCaches w.PathToGitBinary w.PathToRepositoryRoot w.LfsUserName :: rest := by
  have hadv : Advance 0 = 1 := by decide
  obtain ⟨st, cur, q, bin, root, user, m⟩ := w
  simp only at hq hc hstop
  subst hq hc hstop
  by_cases hr : (u.UpdateLockCaches bin root user x).1.1 = true
  · exact ⟨by simp [RunIterations, RunLoopBody, hr, hadv],
      ⟨(RefreshChangedFiles u bin root (u.UpdateLockCaches bin root user x).1.2 []
          (u.UpdateLockCaches bin root user x).2).2.2,
        by simp [RunIterations, RunLoopBody, hr]⟩⟩
  · exact ⟨by simp [RunIterations, RunLoopBody, hr, hadv],
      ⟨[], by simp [RunIterations, RunLoopBody, hr]⟩⟩

/-- C19: with an empty queue, no stop request and nothing pushed, an iteration
entered with `CurIteration = 0` performs the lock-cache refresh and sets the
counter to `1`; each of the following 299 iterations is an idle tick: one sleep,
the counter advanced by one, no other call. The counter is `j` after `j`
iterations for `1 <= j < 300` and `0` again after exactly 300, when the worker
is as it was. From a fresh start the first 299 iterations are idle ticks, the
300th begins with the refresh, and after it the worker is as at the start, so
the refresh comes once every 300 iterations. -/
theorem refresh_period {σ ω : Type} (u : Collaborators σ ω)
    (w : FGitSourceControlLocksWorker) (x : ω)
    (hq : w.CommandQueue = []) (hc : w.CurIteration = 0) (hstop : w.StopTaskCounter = 0) :
    (RunIterations u 1 w x).1 = { w with CurIteration := 1 } ∧
    (∃ rest : List (Event σ), (RunIterations u 1 w x).2.2 =
      Event.UpdateLockCaches w.PathToGitBinary w.PathToRepositoryRoot w.LfsUserName :: rest) ∧
    (∀ k : Nat, k ≤ 299 →
      RunIterations u k (RunIterations u 1 w x).1 (RunIterations u 1 w x).2.1 =
        ({ w with CurIteration := (1 + (k : Int)) % 300 },
         IdleEffect u k (RunIterations u 1 w x).2.1,
         List.replicate k (Event.Sleep 30))) ∧
    (∀ j : Nat, 1 ≤ j → j < 300 → (RunIterations u j w x).1.CurIteration = j) ∧
    (RunIterations u 300 w x).1 = w ∧
    (∀ (m : ModuleSettings) (x0 : ω),
      RunIterations u 299 (Construct m) x0 =
        ({ Construct m with CurIteration := 0 }, IdleEffect u 299 x0,
         List.replicate 299 (Event.Sleep 30)) ∧
      (∃ rest : List (Event σ), (RunIterations u 300 (Construct m) x0).2.2 =
        List.replicate 299 (Event.Sleep 30) ++
          Event.UpdateLockCaches m.BinaryPath m.PathToRepositoryRoot m.LfsUserName :: rest) ∧
      (RunIterations u 300 (Construct m) x0).1 = Construct m) := by
  obtain ⟨hw1, hrest⟩ := refresh_iteration u w x hq hc hstop
  have hidle : ∀ k : Nat, k ≤ 299 →
      RunIterations u k (RunIterations u 1 w x).1 (RunIterations u 1 w x).2.1 =
        ({ w with CurIteration := (1 + (k : Int)) % 300 },
         IdleEffect u k (RunIterations u 1 w x).2.1,
         List.replicate k (Event.Sleep 30)) := by
    intro k hk
    rw [hw1]
    exact RunIterations_idle u k { w with CurIteration := 1 } _ hq hstop
      (by simp only; omega) (by simp only; omega) (by simp only; omega)
  refine ⟨hw1, hrest, hidle, ?_, ?_, ?_⟩
  · intro j hj1 hj2
    obtain ⟨k, rfl⟩ : ∃ k, j = 1 + k := ⟨j - 1, by omega⟩
    rw [RunIterations_add, hidle k (by omega)]
    simp only [Nat.cast_add, Nat.cast_one]
    omega
  · have h300 : (300 : Nat) = 1 + 299 := rfl
    rw [h300, RunIterations_add, hidle 299 (by omega)]
    obtain ⟨st, cur, q, bin, root, user, m⟩ := w
    simp only at hc
    subst hc
    rfl
  · intro m x0
    have h299 := RunIterations_idle u 299 (Construct m) x0 rfl rfl
      (by simp [Construct]) (by simp [Construct]) (by simp [Construct])
    have hzero : RunIterations u 299 (Construct m) x0 =
        ({ Construct m with CurIteration := 0 }, IdleEffect u 299 x0,
         List.replicate 299 (Event.Sleep 30)) := by
      rw [h299]
      rfl
    obtain ⟨hlast, rest, hcall⟩ := refresh_iteration u { Construct m with CurIteration := 0 }
      (IdleEffect u 299 x0) rfl rfl rfl
    have h300 : (300 : Nat) = 299 + 1 := rfl
    refine ⟨hzero, ⟨rest, ?_⟩, ?_⟩
    · rw [h300, RunIterations_add, hzero]
      simp only [hcall]
      rfl
    · rw [h300, RunIterations_add, hzero]
      simp only [hlast]
      rfl

/-- Witness of C19: a worker with an empty queue and `CurIteration = 0` is back
at `0` after 300 iterations and at `7` after seven. -/
theorem refresh_period_witness :
    (RunIterations QuietCollaborators 300
      { Construct SampleSettings with CurIteration := 0 } ()).1
      = { Construct SampleSettings with CurIteration := 0 } ∧
    (RunIterations QuietCollaborators 7
      { Construct SampleSettings with CurIteration := 0 } ()).1.CurIteration = 7 :=
  have h := refresh_period QuietCollaborators
    { Construct SampleSettings with CurIteration := 0 } () rfl rfl rfl
  ⟨h.2.2.2.2.1, h.2.2.2.1 7 (by decide) (by decide)⟩

/-- Running queued commands issues no on-screen message. -/
theorem countP_IsSweepMessage_commands {σ : Type} (cs : List COMMAND) :
    (cs.map (CommandEvent σ)).countP Event.IsSweepMessage = 0 := by
  induction cs with
  | nil => rfl
  | cons c cs ih =>
    simp only [List.map_cons, List.countP_cons, ih, CommandEvent, Event.IsSweepMessage]
    rfl

/-- C20: with `CurIteration = -1`, no stop request and the `n` commands `cs`
queued, and nothing pushed meanwhile, the next `n` iterations run exactly those
commands in order and the counter is `-1` after each of them; iteration `n + 1`
then performs the full sweep (message, pull, submodule update, listing, rescans)
once and leaves the counter at `0`. -/
theorem queued_commands_defer_sweep {σ ω : Type} (u : Collaborators σ ω)
    (w : FGitSourceControlLocksWorker) (x : ω) (cs : List COMMAND)
    (hq : w.CommandQueue = cs) (hc : w.CurIteration = -1) (hstop : w.StopTaskCounter = 0) :
    RunIterations u cs.length w x =
      ({ w with CommandQueue := [] }, CommandEffects u cs x, cs.map (CommandEvent σ)) ∧
    (∀ k : Nat, k ≤ cs.length →
      (RunIterations u k w x).1.CurIteration = -1 ∧
      (RunIterations u k w x).2.2 = (cs.take k).map (CommandEvent σ)) ∧
    (RunIterations u (cs.length + 1) w x).1 = { w with CommandQueue := [], CurIteration := 0 } ∧
    (RunIterations u (cs.length + 1) w x).2.2 =
      cs.map (CommandEvent σ) ++
      ([Event.AddOnScreenDebugMessage "Updating Submodules to the latest version!",
        Event.RunCommand "pull" w.PathToGitBinary w.PathToRepositoryRoot
          ["--rebase", "--autostash", "origin", "HEAD"] [],
        Event.RunCommand "submodule update" w.PathToGitBinary w.PathToRepositoryRoot
          ["--recursive", "--remote"] [],
        Event.GetSubModulesRoots]
       ++ (u.GetSubModulesRoots
            (SweepCommandsEffect u { w with CommandQueue := [] } (CommandEffects u cs x))).map
           (fun sub => Event.RunUpdateStatus w.PathToGitBinary
             (if sub = "" then w.PathToRepositoryRoot
              else w.PathToRepositoryRoot ++ "/" ++ sub)
             true
             [(if sub = "" then w.PathToRepositoryRoot
               else w.PathToRepositoryRoot ++ "/" ++ sub) ++ "/"])
       ++ [Event.RunUpdateStatus w.PathToGitBinary w.PathToRepositoryRoot true
             [w.PathToRepositoryRoot ++ "/"]]) ∧
    (RunIterations u (cs.length + 1) w x).2.2.countP Event.IsSweepMessage = 1 := by
  have hdrain := RunIterations_drain u cs [] w x hstop (by simp [hq])
  obtain ⟨hs1, hs2⟩ := sweep_iteration u { w with CommandQueue := [] } (CommandEffects u cs x)
    rfl hc hstop
  have htrace : (RunIterations u (cs.length + 1) w x).2.2 =
      cs.map (CommandEvent σ) ++
        (RunIterations u 1 { w with CommandQueue := [] } (CommandEffects u cs x)).2.2 := by
    rw [RunIterations_add, hdrain]
  refine ⟨hdrain, ?_, ?_, ?_, ?_⟩
  · intro k hk
    have hsplit : w.CommandQueue = cs.take k ++ cs.drop k := by
      rw [List.take_append_drop, hq]
    have hlen : (cs.take k).length = k := by
      rw [List.length_take]; omega
    have hk := RunIterations_drain u (cs.take k) (cs.drop k) w x hstop hsplit
    rw [hlen] at hk
    rw [hk]
    exact ⟨hc, rfl⟩
  · rw [RunIterations_add, hdrain]
    simp only [hs1]
  · rw [htrace, hs2]
  · rw [htrace, hs2, List.countP_append, countP_IsSweepMessage_commands]
    simp [List.countP_cons, List.countP_append, List.countP_map, Event.IsSweepMessage,
      Function.comp_def]

/-- Witness of C20: three queued commands, then the sweep, in four iterations. -/
theorem queued_commands_defer_sweep_witness :
    (RunIterations QuietCollaborators 4
      { Construct SampleSettings with CommandQueue := SampleCommands, CurIteration := -1 } ()).2.2
      = [Event.RunCommand "lfs lock" "git" "R" [] ["a"],
         Event.RunCommand "lfs unlock" "git" "R" [] ["b"],
         Event.RunCommand "lfs lock" "git" "R" [] ["c"],
         Event.AddOnScreenDebugMessage "Updating Submodules to the latest version!",
         Event.RunCommand "pull" "git" "R" ["--rebase", "--autostash", "origin", "HEAD"] [],
         Event.RunCommand "submodule update" "git" "R" ["--recursive", "--remote"] [],
         Event.GetSubModulesRoots,
         Event.RunUpdateStatus "git" "R" true ["R/"]] :=
  (queued_commands_defer_sweep QuietCollaborators
    { Construct SampleSettings with CommandQueue := SampleCommands, CurIteration := -1 } ()
    SampleCommands rfl rfl rfl).2.2.2.1.trans (by decide)

/-! ## Lemmas on the operation workers -/

/-- On an existing worker whose guard is free, the lock loop of the check-out
returns: it has appended one `lfs lock` per file, in order, and made the six
calls of each file with the guard held during the edit. -/
theorem LockFiles_existing {σ ω : Type} (u : OperationCollaborators σ ω) (p : Platform)
    (bin root : String) (rel : List String) :
    ∀ (ok : Bool) (s : System) (x : ω) (w : FGitSourceControlLocksWorker),
      s.Runnable = some w → w.mutex = false →
      ∃ (ok1 : Bool) (x1 : ω),
        FGitCheckOutWorker.LockFiles u p bin root rel ok s x =
          Completion.Returns (ok1,
            { s with Runnable := some { w with
                CommandQueue := w.CommandQueue ++ CommandPerFile "lfs lock" bin root rel } },
            x1, rel.flatMap (LockCalls bin root true)) := by
  induction rel with
  | nil =>
    intro ok s x w hw _
    refine ⟨ok, x, ?_⟩
    obtain ⟨r, c⟩ := s
    simp only at hw
    subst hw
    simp [FGitCheckOutWorker.LockFiles, CommandPerFile]
  | cons File rest ih =>
    intro ok s x w hw hm
    obtain ⟨r, c⟩ := s
    obtain ⟨st, cur, q, b, rt, user, m⟩ := w
    simp only at hw hm
    subst hw hm
    obtain ⟨ok1, x1, h1⟩ := ih
      (ok && (u.RunCommand "checkout" bin root [] [File] (u.CacheLock [File] x)).1.Success)
      ⟨some ⟨st, cur, q ++ [⟨"lfs lock", bin, root, [], [File]⟩], b, rt, user, false⟩, c⟩
      (u.RunCommand "checkout" bin root [] [File] (u.CacheLock [File] x)).2
      ⟨st, cur, q ++ [⟨"lfs lock", bin, root, [], [File]⟩], b, rt, user, false⟩ rfl rfl
    refine ⟨ok1, x1, ?_⟩
    simp only [FGitCheckOutWorker.LockFiles, IsWrittingCache, LockCache, UnlockCache,
      PushCommand, Bool.false_eq_true, if_false, Option.isNone_some, h1, List.map_cons,
      List.flatMap_cons, LockCalls, CommandPerFile, List.append_assoc, List.singleton_append,
      List.cons_append, List.nil_append]

/-- With no worker yet, on a platform with threads, the lock loop of the
check-out returns: the first `PushCommand` starts the worker, and the edit of
the first file is made with the guard not held. -/
theorem LockFiles_starting {σ ω : Type} (u : OperationCollaborators σ ω) (p : Platform)
    (bin root : String) (File : String) (rest : List String) (ok : Bool) (s : System) (x : ω)
    (hs : s.Runnable = none) (hp : p.SupportsMultithreading = true) :
    ∃ (ok1 : Bool) (x1 : ω),
      FGitCheckOutWorker.LockFiles u p bin root (File :: rest) ok s x =
        Completion.Returns (ok1,
          { Runnable := some { Construct p.Settings with
              CommandQueue := CommandPerFile "lfs lock" bin root (File :: rest) },
            Constructed := s.Constructed + 1 },
          x1, LockCalls bin root false File ++ rest.flatMap (LockCalls bin root true)) := by
  obtain ⟨r, c⟩ := s
  simp only at hs
  subst hs
  obtain ⟨ok1, x1, h1⟩ := LockFiles_existing u p bin root rest
    (ok && (u.RunCommand "checkout" bin root [] [File] (u.CacheLock [File] x)).1.Success)
    ⟨some { Construct p.Settings with CommandQueue := [⟨"lfs lock", bin, root, [], [File]⟩] },
      c + 1⟩
    (u.RunCommand "checkout" bin root [] [File] (u.CacheLock [File] x)).2
    { Construct p.Settings with CommandQueue := [⟨"lfs lock", bin, root, [], [File]⟩] }
    rfl rfl
  refine ⟨ok1, x1, ?_⟩
  simp only [FGitCheckOutWorker.LockFiles, IsWrittingCache, LockCache, UnlockCache,
    PushCommand, JoyInit, hp, Option.isNone_none, Bool.and_self, if_true,
    Bool.false_eq_true, if_false, List.nil_append]
  simp only [Construct, List.nil_append] at h1 ⊢
  simp only [h1, LockCalls, CommandPerFile, List.map_cons, List.singleton_append,
    List.cons_append, List.nil_append]

/-- Calls that are neither guard calls nor edits do not matter to the check of
the critical sections. -/
theorem GuardedEdits_plain_append (a b : List OperationEvent)
    (ha : ∀ e ∈ a, e.IsGuardStep = false) : GuardedEdits (a ++ b) = GuardedEdits b := by
  induction a with
  | nil => rfl
  | cons e a ih =>
    have he := ha e (List.mem_cons_self e a)
    have hrest := ih (fun e1 h1 => ha e1 (List.mem_cons_of_mem e h1))
    cases e <;> simp [OperationEvent.IsGuardStep] at he <;>
      simp [GuardedEdits, OperationEvent.IsGuardStep, hrest]

/-- The calls made for one file of the check-out, with the guard held during the
edit, form one critical section. -/
theorem GuardedEdits_LockCalls (bin root File : String) (l : List OperationEvent) :
    GuardedEdits (LockCalls bin root true File ++ l) = GuardedEdits l := by
  simp [LockCalls, GuardedEdits, OperationEvent.IsGuardStep]

/-- The calls made for one file of the check-in, with the guard held during the
edit, form one critical section. -/
theorem GuardedEdits_UnlockCalls (bin root File : String) (l : List OperationEvent) :
    GuardedEdits (UnlockCalls bin root true File ++ l) = GuardedEdits l := by
  simp [UnlockCalls, GuardedEdits, OperationEvent.IsGuardStep]

/-- The calls of the whole lock loop form critical sections. -/
theorem GuardedEdits_flatMap_LockCalls (bin root : String) (rel : List String)
    (l : List OperationEvent) :
    GuardedEdits (rel.flatMap (LockCalls bin root true) ++ l) = GuardedEdits l := by
  induction rel with
  | nil => rfl
  | cons File rest ih =>
    rw [List.flatMap_cons, List.append_assoc, GuardedEdits_LockCalls, ih]

/-- The calls of the whole unlock loop form critical sections. -/
theorem GuardedEdits_flatMap_UnlockCalls (bin root : String) (rel : List String)
    (l : List OperationEvent) :
    GuardedEdits (rel.flatMap (UnlockCalls bin root true) ++ l) = GuardedEdits l := by
  induction rel with
  | nil => rfl
  | cons File rest ih =>
    rw [List.flatMap_cons, List.append_assoc, GuardedEdits_UnlockCalls, ih]

/-- On an existing worker whose guard is free, the unlock loop of the check-in
returns: it has appended one `lfs unlock` per file, in order, made the five
calls of each file with the guard held during the edit, and left the guard
free. -/
theorem UnlockFiles_existing {σ ω : Type} (u : OperationCollaborators σ ω) (p : Platform)
    (bin root : String) (rel : List String) :
    ∀ (s : System) (x : ω) (w : FGitSourceControlLocksWorker),
      s.Runnable = some w → w.mutex = false →
      ∃ x1 : ω,
        FGitCheckInWorker.UnlockFiles u p bin root rel s x =
          Completion.Returns (
            { s with Runnable := some { w with
                CommandQueue := w.CommandQueue ++ CommandPerFile "lfs unlock" bin root rel } },
            x1, rel.flatMap (UnlockCalls bin root true)) := by
  induction rel with
  | nil =>
    intro s x w hw _
    refine ⟨x, ?_⟩
    obtain ⟨r, c⟩ := s
    simp only at hw
    subst hw
    simp [FGitCheckInWorker.UnlockFiles, CommandPerFile]
  | cons File rest ih =>
    intro s x w hw hm
    obtain ⟨r, c⟩ := s
    obtain ⟨st, cur, q, b, rt, user, m⟩ := w
    simp only at hw hm
    subst hw hm
    obtain ⟨x1, h1⟩ := ih
      ⟨some ⟨st, cur, q ++ [⟨"lfs unlock", bin, root, [], [File]⟩], b, rt, user, false⟩, c⟩
      (u.CacheLockRemove [File] x)
      ⟨st, cur, q ++ [⟨"lfs unlock", bin, root, [], [File]⟩], b, rt, user, false⟩ rfl rfl
    refine ⟨x1, ?_⟩
    simp only [FGitCheckInWorker.UnlockFiles, IsWrittingCache, LockCache, UnlockCache,
      PushCommand, Bool.false_eq_true, if_false, Option.isNone_some, h1, List.map_cons,
      List.flatMap_cons, UnlockCalls, CommandPerFile, List.append_assoc,
      List.singleton_append, List.cons_append, List.nil_append]

/-- With no worker yet, on a platform with threads, the unlock loop of the
check-in returns, and the edit of the first file is made with the guard not
held. -/
theorem UnlockFiles_starting {σ ω : Type} (u : OperationCollaborators σ ω) (p : Platform)
    (bin root : String) (File : String) (rest : List String) (s : System) (x : ω)
    (hs : s.Runnable = none) (hp : p.SupportsMultithreading = true) :
    ∃ x1 : ω,
      FGitCheckInWorker.UnlockFiles u p bin root (File :: rest) s x =
        Completion.Returns (
          { Runnable := some { Construct p.Settings with
              CommandQueue := CommandPerFile "lfs unlock" bin root (File :: rest) },
            Constructed := s.Constructed + 1 },
          x1, UnlockCalls bin root false File ++ rest.flatMap (UnlockCalls bin root true)) := by
  obtain ⟨r, c⟩ := s
  simp only at hs
  subst hs
  obtain ⟨x1, h1⟩ := UnlockFiles_existing u p bin root rest
    ⟨some { Construct p.Settings with CommandQueue := [⟨"lfs unlock", bin, root, [], [File]⟩] },
      c + 1⟩
    (u.CacheLockRemove [File] x)
    { Construct p.Settings with CommandQueue := [⟨"lfs unlock", bin, root, [], [File]⟩] }
    rfl rfl
  refine ⟨x1, ?_⟩
  simp only [FGitCheckInWorker.UnlockFiles, IsWrittingCache, LockCache, UnlockCache,
    PushCommand, JoyInit, hp, Option.isNone_none, Bool.and_self, if_true,
    Bool.false_eq_true, if_false, List.nil_append]
  simp only [Construct, List.nil_append] at h1 ⊢
  simp only [h1, UnlockCalls, CommandPerFile, List.map_cons, List.singleton_append,
    List.cons_append, List.nil_append]

/-- The call that resolves the root is no guard call. -/
theorem ResolveCalls_plain (InCommand : FGitSourceControlCommand) :
    ∀ e ∈ FGitCheckOutWorker.ResolveCalls InCommand, e.IsGuardStep = false := by
  intro e he
  unfold FGitCheckOutWorker.ResolveCalls at he
  cases hf : InCommand.Files with
  | nil => simp [hf] at he
  | cons File rest =>
    simp only [hf, List.mem_singleton] at he
    subst he
    rfl

/-- The check-out with locking enabled, once its lock loop has returned: the
status update is made and the calls are put together. -/
theorem CheckOut_Execute_of_LockFiles {σ ω : Type} (u : OperationCollaborators σ ω)
    (p : Platform) (InCommand : FGitSourceControlCommand) (States : List σ) (s : System)
    (x : ω) (ok : Bool) (s1 : System) (x1 : ω) (t : List OperationEvent)
    (hlfs : InCommand.bUsingGitLfsLocking = true)
    (h : FGitCheckOutWorker.LockFiles u p InCommand.PathToGitBinary
        (FGitCheckOutWorker.ResolvedRoot u InCommand x)
        (u.RelativeFilenames InCommand.Files (FGitCheckOutWorker.ResolvedRoot u InCommand x))
        true s x = Completion.Returns (ok, s1, x1, t)) :
    FGitCheckOutWorker.Execute u p InCommand States s x =
      Completion.Returns (ok,
        (u.RunUpdateStatus InCommand.PathToGitBinary
          (FGitCheckOutWorker.ResolvedRoot u InCommand x) true InCommand.Files States x1).1,
        s1,
        (u.RunUpdateStatus InCommand.PathToGitBinary
          (FGitCheckOutWorker.ResolvedRoot u InCommand x) true InCommand.Files States x1).2,
        FGitCheckOutWorker.ResolveCalls InCommand ++
          [OperationEvent.RelativeFilenames InCommand.Files
            (FGitCheckOutWorker.ResolvedRoot u InCommand x)] ++ t ++
          [OperationEvent.RunUpdateStatus InCommand.PathToGitBinary
            (FGitCheckOutWorker.ResolvedRoot u InCommand x) true InCommand.Files]) := by
  simp only [FGitCheckOutWorker.Execute, hlfs, if_true, h]

/-- The unlock block of the check-in, once its unlock loop has returned. -/
theorem UnlockCheckedInFiles_of_UnlockFiles {σ ω : Type} (u : OperationCollaborators σ ω)
    (p : Platform) (bin root : String) (Files : List String) (s : System) (x : ω)
    (s1 : System) (x1 : ω) (t : List OperationEvent)
    (h : FGitCheckInWorker.UnlockFiles u p bin root
        (u.RelativeFilenames (GetLockedFiles u x Files) root) s x =
        Completion.Returns (s1, x1, t)) :
    FGitCheckInWorker.UnlockCheckedInFiles u p bin root Files s x =
      Completion.Returns (s1, x1,
        [OperationEvent.GetLockedFiles Files,
         OperationEvent.RelativeFilenames (GetLockedFiles u x Files) root] ++ t) := by
  simp only [FGitCheckInWorker.UnlockCheckedInFiles, Nat.zero_le, if_true, h]

/-- Counterexample to C22 as stated: a check-out of `a` and `b` entered before
any worker was started edits the lock cache for `a` while `IsWrittingCache()`
would answer `false`; `LockCache()` did nothing. -/
theorem checkout_first_edit_unguarded_counterexample :
    ∃ (ok : Bool) (s1 : System) (t : List OperationEvent),
      FGitCheckOutWorker.Execute (QuietOperations [] []) ThreadedPlatform SampleCheckOut
          ([] : List Unit) NoWorker () = Completion.Returns (ok, [], s1, (), t) ∧
      OperationEvent.CacheLock ["a"] false ∈ t ∧
      ¬ (GuardedEdits t = true) :=
  ⟨true, _, _, rfl, by decide, by decide⟩

/-- C22 (amended): entered with a worker existing and its guard free, the
check-out and the unlock block of the check-in return, every edit of the lock
cache they made (`CacheLock`, `CacheLockRemove`) is inside a critical section (a
poll that reads `false`, `LockCache`, the edit with the guard held, `UnlockCache`
right after and before the next `RunCommand` or `PushCommand`), and the guard is
free at the end. Entered with no worker started, on a platform with threads,
they return too, but `LockCache` did nothing for the first file: its edit is
made with the guard not held. Entered with the guard held, the check-out does
not get past its first poll. -/
theorem edits_inside_guard_on_existing_worker {σ ω : Type} (u : OperationCollaborators σ ω)
    (p : Platform) (s : System) (x : ω) (w : FGitSourceControlLocksWorker)
    (hw : s.Runnable = some w) (hm : w.mutex = false) :
    (∀ (InCommand : FGitSourceControlCommand) (States : List σ),
      ∃ (ok : Bool) (States1 : List σ) (s1 : System) (x1 : ω) (t : List OperationEvent),
        FGitCheckOutWorker.Execute u p InCommand States s x =
          Completion.Returns (ok, States1, s1, x1, t) ∧
        GuardedEdits t = true ∧ IsWrittingCache s1 = false) ∧
    (∀ (bin root : String) (Files : List String),
      ∃ (s1 : System) (x1 : ω) (t : List OperationEvent),
        FGitCheckInWorker.UnlockCheckedInFiles u p bin root Files s x =
          Completion.Returns (s1, x1, t) ∧
        GuardedEdits t = true ∧ IsWrittingCache s1 = false) ∧
    (∀ s0 : System, s0.Runnable = none → p.SupportsMultithreading = true →
      (∀ (InCommand : FGitSourceControlCommand) (States : List σ) (File : String)
          (rest : List String),
        InCommand.bUsingGitLfsLocking = true →
        u.RelativeFilenames InCommand.Files (FGitCheckOutWorker.ResolvedRoot u InCommand x)
          = File :: rest →
        ∃ (ok : Bool) (States1 : List σ) (s1 : System) (x1 : ω) (t : List OperationEvent),
          FGitCheckOutWorker.Execute u p InCommand States s0 x =
            Completion.Returns (ok, States1, s1, x1, t) ∧
          OperationEvent.CacheLock [File] false ∈ t ∧ GuardedEdits t = false) ∧
      (∀ (bin root : String) (Files : List String) (File : String) (rest : List String),
        u.RelativeFilenames (GetLockedFiles u x Files) root = File :: rest →
        ∃ (s1 : System) (x1 : ω) (t : List OperationEvent),
          FGitCheckInWorker.UnlockCheckedInFiles u p bin root Files s0 x =
            Completion.Returns (s1, x1, t) ∧
          OperationEvent.CacheLockRemove [File] false ∈ t ∧ GuardedEdits t = false)) ∧
    (∀ (s0 : System) (w0 : FGitSourceControlLocksWorker), s0.Runnable = some w0 →
      w0.mutex = true →
      ∀ (InCommand : FGitSourceControlCommand) (States : List σ) (File : String)
        (rest : List String),
        InCommand.bUsingGitLfsLocking = true →
        u.RelativeFilenames InCommand.Files (FGitCheckOutWorker.ResolvedRoot u InCommand x)
          = File :: rest →
        FGitCheckOutWorker.Execute u p InCommand States s0 x = Completion.Spins) := by
  have hfree : IsWrittingCache s = false := by simp only [IsWrittingCache, hw, hm]
  refine ⟨?_, ?_, ?_, ?_⟩
  · intro InCommand States
    cases hlfs : InCommand.bUsingGitLfsLocking with
    | false =>
      refine ⟨false, States, s, x, FGitCheckOutWorker.ResolveCalls InCommand, ?_, ?_, hfree⟩
      · simp [FGitCheckOutWorker.Execute, hlfs]
      · have h := GuardedEdits_plain_append (FGitCheckOutWorker.ResolveCalls InCommand) []
          (ResolveCalls_plain InCommand)
        rw [List.append_nil] at h
        rw [h]
        rfl
    | true =>
      obtain ⟨ok1, x1, h1⟩ := LockFiles_existing u p InCommand.PathToGitBinary
        (FGitCheckOutWorker.ResolvedRoot u InCommand x)
        (u.RelativeFilenames InCommand.Files (FGitCheckOutWorker.ResolvedRoot u InCommand x))
        true s x w hw hm
      refine ⟨_, _, _, _, _,
        CheckOut_Execute_of_LockFiles u p InCommand States s x _ _ _ _ hlfs h1, ?_, ?_⟩
      · rw [List.append_assoc, List.append_assoc, GuardedEdits_plain_append _ _
          (ResolveCalls_plain InCommand)]
        rw [List.singleton_append]
        simp only [GuardedEdits, OperationEvent.IsGuardStep, Bool.not_false, Bool.true_and]
        rw [GuardedEdits_flatMap_LockCalls]
        simp [GuardedEdits, OperationEvent.IsGuardStep]
      · simp only [IsWrittingCache, hm]
  · intro bin root Files
    obtain ⟨x1, h1⟩ := UnlockFiles_existing u p bin root
      (u.RelativeFilenames (GetLockedFiles u x Files) root) s x w hw hm
    refine ⟨_, _, _, UnlockCheckedInFiles_of_UnlockFiles u p bin root Files s x _ _ _ h1,
      ?_, ?_⟩
    · simp only [List.cons_append, List.nil_append, GuardedEdits, OperationEvent.IsGuardStep,
        Bool.not_false, Bool.true_and]
      have h := GuardedEdits_flatMap_UnlockCalls bin root
        (u.RelativeFilenames (GetLockedFiles u x Files) root) []
      rw [List.append_nil] at h
      exact h.trans rfl
    · simp only [IsWrittingCache, hm]
  · intro s0 hs0 hp
    refine ⟨?_, ?_⟩
    · intro InCommand States File rest hlfs hrel
      obtain ⟨ok1, x1, h1⟩ := LockFiles_starting u p InCommand.PathToGitBinary
        (FGitCheckOutWorker.ResolvedRoot u InCommand x) File rest true s0 x hs0 hp
      rw [← hrel] at h1
      refine ⟨_, _, _, _, _,
        CheckOut_Execute_of_LockFiles u p InCommand States s0 x _ _ _ _ hlfs h1, ?_, ?_⟩
      · simp [LockCalls]
      · rw [List.append_assoc, List.append_assoc, GuardedEdits_plain_append _ _
          (ResolveCalls_plain InCommand)]
        simp [LockCalls, GuardedEdits, OperationEvent.IsGuardStep]
    · intro bin root Files File rest hrel
      obtain ⟨x1, h1⟩ := UnlockFiles_starting u p bin root File rest s0 x hs0 hp
      rw [← hrel] at h1
      refine ⟨_, _, _, UnlockCheckedInFiles_of_UnlockFiles u p bin root Files s0 x _ _ _ h1,
        ?_, ?_⟩
      · simp [UnlockCalls]
      · simp [UnlockCalls, GuardedEdits, OperationEvent.IsGuardStep]
  · intro s0 w0 hs0 hm0 InCommand States File rest hlfs hrel
    have hheld : IsWrittingCache s0 = true := by simp only [IsWrittingCache, hs0, hm0]
    simp only [FGitCheckOutWorker.Execute, hlfs, if_true, hrel, FGitCheckOutWorker.LockFiles,
      hheld]

/-- Witness of C22: a check-out of `a` and `b` on a fresh worker makes both edits
inside critical sections and leaves the guard free. -/
theorem edits_inside_guard_on_existing_worker_witness :
    ∃ (ok : Bool) (States1 : List Unit) (s1 : System) (x1 : Unit) (t : List OperationEvent),
      FGitCheckOutWorker.Execute (QuietOperations [] []) ThreadedPlatform SampleCheckOut []
          FreshWorker () = Completion.Returns (ok, States1, s1, x1, t) ∧
      GuardedEdits t = true ∧ IsWrittingCache s1 = false :=
  (edits_inside_guard_on_existing_worker (QuietOperations [] []) ThreadedPlatform FreshWorker
    () (Construct SampleSettings) rfl rfl).1 SampleCheckOut []

/-- With no file selected for a root, the body of the revert loop sorts every
file of the status cache. -/
theorem GetMissingVsExistingFiles_nil {σ ω : Type} (u : OperationCollaborators σ ω) (x : ω) :
    GetMissingVsExistingFiles u x [] =
      ClassifyStates u x (u.GetState (u.GetFilesInCache x) x) [] [] [] := by
  simp [GetMissingVsExistingFiles]

/-- C23 fails on the code: a revert of the one file `R/a.uasset`, with the
sub-repository `Sub` and a status cache that also holds the modified file
`R/Sub/b.uasset`, visits root `R/Sub` first, selects no file there, and, its
loop having no `continue`, sorts the whole cache and runs `reset` and `checkout`
under `R/Sub` on both files, the unrequested `R/Sub/b.uasset` among them. -/
theorem revert_reaches_unrequested_cache_file :
    SampleRequest.Files = ["R/a.uasset"] ∧
    (FGitRevertWorker.Execute (QuietOperations ["R/a.uasset", "R/Sub/b.uasset"] ["Sub"])
        SampleRequest ([] : List Unit) ()).2 =
      [⟨"R/Sub", ["R/a.uasset"], []⟩, ⟨"R", ["R/a.uasset"], ["R/a.uasset"]⟩] ∧
    CommandFiles "reset"
        (FGitRevertWorker.Execute (QuietOperations ["R/a.uasset", "R/Sub/b.uasset"] ["Sub"])
          SampleRequest ([] : List Unit) ()).1.Calls =
      [("R/Sub", ["R/a.uasset", "R/Sub/b.uasset"]), ("R", ["R/a.uasset"])] ∧
    CommandFiles "checkout"
        (FGitRevertWorker.Execute (QuietOperations ["R/a.uasset", "R/Sub/b.uasset"] ["Sub"])
          SampleRequest ([] : List Unit) ()).1.Calls =
      [("R/Sub", ["R/a.uasset", "R/Sub/b.uasset"]), ("R", ["R/a.uasset"])] ∧
    "R/Sub/b.uasset" ∉ SampleRequest.Files := by
  refine ⟨rfl, ?_, ?_, ?_, ?_⟩ <;> decide

/-- What `RemoveSwap` leaves, from a position on, was in the array and is not
equal to the item. -/
theorem mem_RemoveSwapFrom (Equals : String → String → Bool) (Item : String) :
    ∀ (fuel : Nat) (kept rest : List String) (y : String), rest.length ≤ fuel →
      y ∈ RemoveSwapFrom Equals Item fuel kept rest →
      y ∈ kept ∨ (y ∈ rest ∧ Equals y Item = false) := by
  intro fuel
  induction fuel with
  | zero =>
    intro kept rest y hlen hy
    have hnil : rest = [] := List.length_eq_zero.mp (Nat.le_zero.mp hlen)
    subst hnil
    simp [RemoveSwapFrom] at hy
    exact Or.inl hy
  | succ n ih =>
    intro kept rest y hlen hy
    cases rest with
    | nil =>
      simp [RemoveSwapFrom] at hy
      exact Or.inl hy
    | cons a r =>
      simp only [RemoveSwapFrom] at hy
      by_cases he : Equals a Item = true
      · rw [if_pos he] at hy
        cases hl : r.getLast? with
        | none =>
          rw [hl] at hy
          exact Or.inl hy
        | some last =>
          rw [hl] at hy
          have hr : r.dropLast ++ [last] = r :=
            List.dropLast_append_getLast? last (by rw [hl]; exact rfl)
          have hlen1 : r.dropLast.length + 1 = r.length := by
            have h := congrArg List.length hr
            simpa using h
          have hlen2 : (last :: r.dropLast).length ≤ n := by
            simp only [List.length_cons] at hlen ⊢
            omega
          rcases ih kept (last :: r.dropLast) y hlen2 hy with h | ⟨h, h2⟩
          · exact Or.inl h
          · right
            refine ⟨List.mem_cons_of_mem _ ?_, h2⟩
            rw [← hr]
            rcases List.mem_cons.mp h with h3 | h3
            · rw [h3]
              simp
            · exact List.mem_append_left _ h3
      · rw [if_neg he] at hy
        have hlen2 : r.length ≤ n := by
          simp only [List.length_cons] at hlen
          omega
        rcases ih (kept ++ [a]) r y hlen2 hy with h | ⟨h, h2⟩
        · rcases List.mem_append.mp h with h3 | h3
          · exact Or.inl h3
          · right
            have hya : y = a := by simpa using h3
            subst hya
            exact ⟨List.mem_cons_self _ _, by simpa using he⟩
        · right
          exact ⟨List.mem_cons_of_mem _ h, h2⟩

/-- What `RemoveSwap` leaves was in the array and is not equal to the item. -/
theorem mem_RemoveSwap (Equals : String → String → Bool) (Item : String)
    (Array : List String) (y : String) (hy : y ∈ RemoveSwap Equals Item Array) :
    y ∈ Array ∧ Equals y Item = false := by
  rcases mem_RemoveSwapFrom Equals Item Array.length [] Array y (Nat.le_refl _) hy with h | h
  · simp at h
  · exact h

/-- What is left of `InFiles` after the selected files were removed was in
`InFiles` and is equal to none of the selected files. -/
theorem mem_RemoveSelected (Equals : String → String → Bool) :
    ∀ (Files InFiles : List String) (y : String), y ∈ RemoveSelected Equals Files InFiles →
      y ∈ InFiles ∧ ∀ f ∈ Files, Equals y f = false := by
  intro Files
  induction Files with
  | nil =>
    intro InFiles y hy
    exact ⟨hy, by simp⟩
  | cons File rest ih =>
    intro InFiles y hy
    simp only [RemoveSelected] at hy
    obtain ⟨h1, h2⟩ := ih _ y hy
    obtain ⟨h3, h4⟩ := mem_RemoveSwap Equals File InFiles y h1
    refine ⟨h3, ?_⟩
    intro f hf
    rcases List.mem_cons.mp hf with h | h
    · rw [h]
      exact h4
    · exact h2 f h

/-- The selected files are among the candidates. -/
theorem SelectFiles_subset {σ ω : Type} (u : OperationCollaborators σ ω) (x : ω)
    (Root : String) (InFiles : List String) (f : String)
    (hf : f ∈ SelectFiles u x Root InFiles) : f ∈ InFiles :=
  (List.mem_filter.mp hf).1

/-- The roots a partition loop visits are those of its entries, in order. -/
theorem PartitionLoop_roots {σ ω β : Type} (u : OperationCollaborators σ ω) (World : β → ω)
    (PathToRepositoryRoot : String) (SkipsEmpty : Bool)
    (Body : String → List String → β → β) :
    ∀ (AllProjects InFiles : List String) (st : β),
      (PartitionLoop u World PathToRepositoryRoot SkipsEmpty Body AllProjects InFiles st).2.map
          (fun v => v.Root) =
        AllProjects.map (SubRepoRoot PathToRepositoryRoot) := by
  intro AllProjects
  induction AllProjects with
  | nil =>
    intro InFiles st
    rfl
  | cons Sub rest ih =>
    intro InFiles st
    simp only [PartitionLoop]
    split
    · simp only [List.map_cons, ih]
    · simp only [List.map_cons, ih]

/-- Every visit of a partition loop has candidates among the files the loop
started with, and its files are the selection among its candidates. -/
theorem PartitionLoop_candidates {σ ω β : Type} (u : OperationCollaborators σ ω)
    (World : β → ω) (PathToRepositoryRoot : String) (SkipsEmpty : Bool)
    (Body : String → List String → β → β) :
    ∀ (AllProjects InFiles : List String) (st : β),
      ∀ v ∈ (PartitionLoop u World PathToRepositoryRoot SkipsEmpty Body AllProjects InFiles
          st).2,
        (∀ f ∈ v.Candidates, f ∈ InFiles) ∧
        ∃ x : ω, v.Files = SelectFiles u x v.Root v.Candidates := by
  intro AllProjects
  induction AllProjects with
  | nil =>
    intro InFiles st v hv
    simp [PartitionLoop] at hv
  | cons Sub rest ih =>
    intro InFiles st v hv
    simp only [PartitionLoop] at hv
    split at hv
    · rcases List.mem_cons.mp hv with h | h
      · subst h
        exact ⟨fun f hf => hf, World st, rfl⟩
      · exact ih InFiles st v h
    · rcases List.mem_cons.mp hv with h | h
      · subst h
        exact ⟨fun f hf => hf, World st, rfl⟩
      · obtain ⟨h1, h2⟩ := ih _ _ v h
        exact ⟨fun f hf => (mem_RemoveSelected u.Equals _ _ f (h1 f hf)).1, h2⟩

/-- A candidate of a later visit of a partition loop was a candidate of every
earlier visit and was not selected there. -/
theorem PartitionLoop_pairwise {σ ω β : Type} (u : OperationCollaborators σ ω)
    (World : β → ω) (PathToRepositoryRoot : String) (SkipsEmpty : Bool)
    (Body : String → List String → β → β) (hrefl : ∀ a : String, u.Equals a a = true) :
    ∀ (AllProjects InFiles : List String) (st : β),
      (PartitionLoop u World PathToRepositoryRoot SkipsEmpty Body AllProjects InFiles
          st).2.Pairwise
        (fun a b => ∀ f ∈ b.Candidates, f ∈ a.Candidates ∧ f ∉ a.Files) := by
  intro AllProjects
  induction AllProjects with
  | nil =>
    intro InFiles st
    simp [PartitionLoop]
  | cons Sub rest ih =>
    intro InFiles st
    simp only [PartitionLoop]
    split
    · rename_i hskip
      refine List.Pairwise.cons ?_ (ih _ _)
      intro b hb f hf
      have hempty : SelectFiles u (World st) (SubRepoRoot PathToRepositoryRoot Sub) InFiles
          = [] := by
        simp only [Bool.and_eq_true, List.isEmpty_iff] at hskip
        exact hskip.2
      refine ⟨(PartitionLoop_candidates u World PathToRepositoryRoot SkipsEmpty Body rest
        InFiles st b hb).1 f hf, ?_⟩
      simp only [hempty, List.not_mem_nil, not_false_eq_true]
    · refine List.Pairwise.cons ?_ (ih _ _)
      intro b hb f hf
      have h := (PartitionLoop_candidates u World PathToRepositoryRoot SkipsEmpty Body rest
        _ _ b hb).1 f hf
      obtain ⟨h1, h2⟩ := mem_RemoveSelected u.Equals _ _ f h
      refine ⟨h1, ?_⟩
      intro hin
      have h3 := h2 f hin
      rw [hrefl f] at h3
      exact Bool.noConfusion h3

/-- The `RunCommand` calls of two lists of calls put together. -/
theorem CommandFiles_append (Name : String) (a b : List OperationEvent) :
    CommandFiles Name (a ++ b) = CommandFiles Name a ++ CommandFiles Name b := by
  induction a with
  | nil => rfl
  | cons e rest ih =>
    rw [List.cons_append]
    cases e with
    | RunCommand c bin root ps fs =>
      by_cases h : c = Name
      · simp only [CommandFiles, h, if_true, ih, List.cons_append]
      · simp only [CommandFiles, h, if_false, ih]
    | _ => simp only [CommandFiles, ih]

/-- The `add` commands among the calls made for the visits of a partition loop:
one for each visit with files, on its root and its files. -/
theorem CommandFiles_AddCalls (InCommand : FGitSourceControlCommand) :
    ∀ visits : List RootVisit,
      CommandFiles "add" (visits.flatMap (AddCalls InCommand)) =
        (visits.filter (fun v => !v.Files.isEmpty)).map (fun v => (v.Root, v.Files)) := by
  intro visits
  induction visits with
  | nil => rfl
  | cons v rest ih =>
    rw [List.flatMap_cons, CommandFiles_append, ih]
    cases hv : v.Files.isEmpty with
    | true => simp [AddCalls, hv, CommandFiles, List.filter_cons]
    | false => simp [AddCalls, hv, CommandFiles, List.filter_cons]

/-- The calls `FGitMarkForAddWorker::Execute` makes in its loop: those of each
visit, in order, after the calls made before. -/
theorem MarkForAdd_calls {σ ω : Type} (u : OperationCollaborators σ ω)
    (InCommand : FGitSourceControlCommand) :
    ∀ (AllProjects InFiles : List String) (st : OperationState σ ω),
      (PartitionLoop u (fun st => st.World) InCommand.PathToRepositoryRoot true
          (FGitMarkForAddWorker.AddFiles u InCommand) AllProjects InFiles st).1.Calls =
        st.Calls ++
          (PartitionLoop u (fun st => st.World) InCommand.PathToRepositoryRoot true
            (FGitMarkForAddWorker.AddFiles u InCommand) AllProjects InFiles st).2.flatMap
            (AddCalls InCommand) := by
  intro AllProjects
  induction AllProjects with
  | nil =>
    intro InFiles st
    simp [PartitionLoop]
  | cons Sub rest ih =>
    intro InFiles st
    simp only [PartitionLoop]
    split
    · rename_i hskip
      simp only [Bool.true_and] at hskip
      simp only [List.flatMap_cons, ih, AddCalls, hskip, if_true, List.nil_append]
    · rename_i hskip
      simp only [Bool.true_and, Bool.not_eq_true] at hskip
      simp only [List.flatMap_cons, ih, AddCalls, hskip, Bool.false_eq_true, if_false,
        FGitMarkForAddWorker.AddFiles, OperationState.RunCommand,
        OperationState.RunUpdateStatus, List.append_assoc, List.cons_append, List.nil_append]

/-- The files of a later visit of a partition loop were candidates of every
earlier visit and were not selected there; the files of two visits are disjoint. -/
theorem PartitionLoop_first_match {σ ω β : Type} (u : OperationCollaborators σ ω)
    (World : β → ω) (PathToRepositoryRoot : String) (SkipsEmpty : Bool)
    (Body : String → List String → β → β) (hrefl : ∀ a : String, u.Equals a a = true)
    (AllProjects InFiles : List String) (st : β) :
    (PartitionLoop u World PathToRepositoryRoot SkipsEmpty Body AllProjects InFiles
        st).2.Pairwise
      (fun a b => (∀ f ∈ a.Files, f ∉ b.Files) ∧
        ∀ f ∈ b.Files, f ∈ a.Candidates ∧ f ∉ a.Files) := by
  refine List.Pairwise.imp_of_mem ?_
    (PartitionLoop_pairwise u World PathToRepositoryRoot SkipsEmpty Body hrefl AllProjects
      InFiles st)
  intro a b _ hb h
  obtain ⟨_, x1, hsel⟩ := PartitionLoop_candidates u World PathToRepositoryRoot SkipsEmpty
    Body AllProjects InFiles st b hb
  have hsub : ∀ f ∈ b.Files, f ∈ b.Candidates := by
    intro f hf
    rw [hsel] at hf
    exact SelectFiles_subset u x1 b.Root b.Candidates f hf
  exact ⟨fun f hfa hfb => (h f (hsub f hfb)).2 hfa, fun f hf => h f (hsub f hf)⟩

/-- The files of every visit of a partition loop are among the files the loop
started with. -/
theorem PartitionLoop_files {σ ω β : Type} (u : OperationCollaborators σ ω)
    (World : β → ω) (PathToRepositoryRoot : String) (SkipsEmpty : Bool)
    (Body : String → List String → β → β) (AllProjects InFiles : List String) (st : β) :
    ∀ v ∈ (PartitionLoop u World PathToRepositoryRoot SkipsEmpty Body AllProjects InFiles
        st).2, ∀ f ∈ v.Files, f ∈ InFiles := by
  intro v hv f hf
  obtain ⟨h1, x1, hsel⟩ := PartitionLoop_candidates u World PathToRepositoryRoot SkipsEmpty
    Body AllProjects InFiles st v hv
  rw [hsel] at hf
  exact h1 f (SelectFiles_subset u x1 v.Root v.Candidates f hf)

/-- The `add` commands of `FGitMarkForAddWorker::Execute`: one for each visit
with files, on its root and its files, in the order of the visits. -/
theorem MarkForAdd_adds {σ ω : Type} (u : OperationCollaborators σ ω)
    (InCommand : FGitSourceControlCommand) (States : List σ) (x : ω) :
    CommandFiles "add" (FGitMarkForAddWorker.Execute u InCommand States x).1.Calls =
      ((FGitMarkForAddWorker.Execute u InCommand States x).2.filter
        (fun v => !v.Files.isEmpty)).map (fun v => (v.Root, v.Files)) := by
  simp only [FGitMarkForAddWorker.Execute]
  rw [MarkForAdd_calls, CommandFiles_append, CommandFiles_AddCalls]
  simp [CommandFiles]

/-- C24: the loop of `FGitMarkForAddWorker::Execute` visits the sub-repository
roots in listed order and then the top-level root, and runs one `add` for each
root with files, on the files selected there. The file lists passed to `add`
hold only requested files and are pairwise disjoint, and a file selected for a
root was still a candidate at every earlier root and was not selected there, so
it goes to the first root it matches and to no other. The same holds of the
partition loop with any loop body, with or without the `continue` on an empty
selection, which is the loop of the check-in, delete, revert, update-status,
copy and resolve workers. `FString::operator==` is taken to be reflexive. -/
theorem markforadd_assigns_file_to_first_root_only {σ ω : Type}
    (u : OperationCollaborators σ ω) (InCommand : FGitSourceControlCommand)
    (States : List σ) (x : ω) (hrefl : ∀ a : String, u.Equals a a = true) :
    (FGitMarkForAddWorker.Execute u InCommand States x).2.map (fun v => v.Root) =
        (u.GetSubModulesRoots x ++ [""]).map
          (SubRepoRoot InCommand.PathToRepositoryRoot) ∧
    CommandFiles "add" (FGitMarkForAddWorker.Execute u InCommand States x).1.Calls =
        ((FGitMarkForAddWorker.Execute u InCommand States x).2.filter
          (fun v => !v.Files.isEmpty)).map (fun v => (v.Root, v.Files)) ∧
    (∀ a ∈ CommandFiles "add" (FGitMarkForAddWorker.Execute u InCommand States x).1.Calls,
        ∀ f ∈ a.2, f ∈ InCommand.Files) ∧
    (CommandFiles "add" (FGitMarkForAddWorker.Execute u InCommand States x).1.Calls).Pairwise
        (fun a b => ∀ f ∈ a.2, f ∉ b.2) ∧
    (FGitMarkForAddWorker.Execute u InCommand States x).2.Pairwise
        (fun a b => ∀ f ∈ b.Files, f ∈ a.Candidates ∧ f ∉ a.Files) ∧
    (∀ v ∈ (FGitMarkForAddWorker.Execute u InCommand States x).2,
        (∀ f ∈ v.Candidates, f ∈ InCommand.Files) ∧
        ∃ x1 : ω, v.Files = SelectFiles u x1 v.Root v.Candidates) ∧
    (∀ (β : Type) (World : β → ω) (PathToRepositoryRoot : String) (SkipsEmpty : Bool)
        (Body : String → List String → β → β) (AllProjects InFiles : List String) (st : β),
      (∀ v ∈ (PartitionLoop u World PathToRepositoryRoot SkipsEmpty Body AllProjects InFiles
          st).2, ∀ f ∈ v.Files, f ∈ InFiles) ∧
      (PartitionLoop u World PathToRepositoryRoot SkipsEmpty Body AllProjects InFiles
          st).2.Pairwise
        (fun a b => (∀ f ∈ a.Files, f ∉ b.Files) ∧
          ∀ f ∈ b.Files, f ∈ a.Candidates ∧ f ∉ a.Files)) := by
  have hfirst := PartitionLoop_first_match u (fun st : OperationState σ ω => st.World)
    InCommand.PathToRepositoryRoot true (FGitMarkForAddWorker.AddFiles u InCommand) hrefl
    (u.GetSubModulesRoots x ++ [""]) InCommand.Files
    { bCommandSuccessful := InCommand.bCommandSuccessful, States := States, World := x,
      Calls := [OperationEvent.GetSubModulesRoots] }
  have hfiles := PartitionLoop_files u (fun st : OperationState σ ω => st.World)
    InCommand.PathToRepositoryRoot true (FGitMarkForAddWorker.AddFiles u InCommand)
    (u.GetSubModulesRoots x ++ [""]) InCommand.Files
    { bCommandSuccessful := InCommand.bCommandSuccessful, States := States, World := x,
      Calls := [OperationEvent.GetSubModulesRoots] }
  refine ⟨?_, MarkForAdd_adds u InCommand States x, ?_, ?_, ?_, ?_, ?_⟩
  · exact PartitionLoop_roots u _ _ _ _ _ _ _
  · intro a ha f hf
    rw [MarkForAdd_adds] at ha
    obtain ⟨v, hv, hva⟩ := List.mem_map.mp ha
    subst hva
    exact hfiles v (List.mem_filter.mp hv).1 f hf
  · rw [MarkForAdd_adds, List.pairwise_map]
    exact (hfirst.imp (fun h => h.1)).filter _
  · exact hfirst.imp (fun h => h.2)
  · exact PartitionLoop_candidates u _ _ _ _ _ _ _
  · intro β World PathToRepositoryRoot SkipsEmpty Body AllProjects InFiles st
    exact ⟨PartitionLoop_files u World PathToRepositoryRoot SkipsEmpty Body AllProjects
      InFiles st,
      PartitionLoop_first_match u World PathToRepositoryRoot SkipsEmpty Body hrefl
        AllProjects InFiles st⟩

/-- Witness of C24: adding `R/a.uasset` and `R/Sub/b.uasset` with the
sub-repository `Sub` runs `add` under `R/Sub` on the second file and under `R`
on the first; the second file, whose name starts with `R` too, is not added
under `R`. -/
theorem markforadd_assigns_file_to_first_root_only_witness :
    (∀ a : String, (QuietOperations [] ["Sub"]).Equals a a = true) ∧
    CommandFiles "add"
        (FGitMarkForAddWorker.Execute (QuietOperations [] ["Sub"]) SampleAdd
          ([] : List Unit) ()).1.Calls =
      [("R/Sub", ["R/Sub/b.uasset"]), ("R", ["R/a.uasset"])] ∧
    (CommandFiles "add"
        (FGitMarkForAddWorker.Execute (QuietOperations [] ["Sub"]) SampleAdd
          ([] : List Unit) ()).1.Calls).Pairwise (fun a b => ∀ f ∈ a.2, f ∉ b.2) :=
  ⟨fun a => by simp [QuietOperations], by decide,
    (markforadd_assigns_file_to_first_root_only (QuietOperations [] ["Sub"]) SampleAdd []
      () (fun a => by simp [QuietOperations])).2.2.2.1⟩

end FGitSourceControlLocksWorker
